import Mathlib

/-!
Verification of the llamacrew task-orchestration core against its
natural-language specification.

The Python source is shallowly embedded as follows:

* Python dicts with string keys become association lists
  (`List (String × _)`) with Python's replace-or-append assignment
  semantics (`dinsert`), first-match lookup (`dlookup`) and key removal
  (`ddelete`).  Python dict keys are unique, so on every state reachable
  through the dict API the association list has distinct keys and the
  embedding is exact.
* JSON-serializable scalar values (the payload of `llm_config` and task
  `context` maps) become the inductive `Val`.  The float `0.7` is
  embedded as the rational `7/10`; no arithmetic is ever performed on it,
  it is only stored and compared.
* A `Task` references its dependencies by `task_id` rather than by
  object pointer.  The Python object graph may alias arbitrarily;
  theorems that need the id-indexed view to coincide with the pointer
  view carry the well-formedness hypotheses that the crew's task ids are
  distinct (`Nodup`) and that every dependency id names a crew task
  (closure).  Those are exactly the crews the specification talks about.
* Mutation of a task object becomes functional update of the unique
  task with that id in the crew's task list.
* `uuid4()` defaults are embedded as explicit `fresh` arguments: the
  generated value is opaque and never inspected by the code under
  verification.
* Wall-clock measurement (`time.time()`) is embedded as the mere
  presence of an `execution_time` entry in result metadata.
* File I/O in the checkpoint manager (json.dump / json.load of a record
  with fixed keys) is embedded by passing the serialized record itself:
  `save` produces a `CheckpointData` value and `load` consumes one.
-/

namespace LlamaCrew

/-- JSON-ish scalar values stored in `llm_config` / `context` dicts. -/
inductive Val where
  | str (s : String)
  | num (q : ℚ)
  | boolv (b : Bool)
  | vnull
deriving DecidableEq, Repr

/-- Rendering used when a value is interpolated into a prompt string
(models Python str()). -/
def valToString : Val → String
  | .str s => s
  | .num q => toString q
  | .boolv b => toString b
  | .vnull => "None"

/-- First-match lookup in an association list (Python dict lookup). -/
def dlookup (k : String) : List (String × α) → Option α
  | [] => none
  | (k2, v) :: rest => if k2 = k then some v else dlookup k rest

/-- Python `k in d`. -/
def dcontains (k : String) (d : List (String × α)) : Bool :=
  (dlookup k d).isSome

/-- Python dict assignment `d[k] = v`: replace the binding when the key
is present, otherwise append the new binding (insertion order kept). -/
def dinsert (k : String) (v : α) (d : List (String × α)) : List (String × α) :=
  if dcontains k d then d.map (fun kv => (kv.1, if kv.1 = k then v else kv.2))
  else d ++ [(k, v)]

/-- Python `del d[k]`. -/
def ddelete (k : String) : List (String × α) → List (String × α)
  | [] => []
  | kv :: rest => if kv.1 = k then ddelete k rest else kv :: ddelete k rest

/-- Task lifecycle status (`TaskStatus` enum in core/task.py). -/
inductive TaskStatus where
  | pending
  | in_progress
  | completed
  | failed
  | skipped
deriving DecidableEq, Repr

/-- Source `status.value` of the Python enum. -/
def statusToString : TaskStatus → String
  | .pending => "pending"
  | .in_progress => "in_progress"
  | .completed => "completed"
  | .failed => "failed"
  | .skipped => "skipped"

/-- Source `TaskStatus(s)`: enum construction from the serialized value; raises
ValueError on an unknown string. -/
def statusOfString (s : String) : Except String TaskStatus :=
  if s = "pending" then .ok .pending
  else if s = "in_progress" then .ok .in_progress
  else if s = "completed" then .ok .completed
  else if s = "failed" then .ok .failed
  else if s = "skipped" then .ok .skipped
  else .error ("ValueError: " ++ s ++ " is not a valid TaskStatus")

/-- Agent dataclass (core/agent.py), prior to `__post_init__`. -/
structure Agent where
  role : String
  goal : String
  backstory : String := ""
  tools : List String := []
  llm_config : List (String × Val) := []
  agent_id : String
  verbose : Bool := true
  max_iterations : Nat := 15
  allow_delegation : Bool := false
  memory_enabled : Bool := true
deriving DecidableEq, Repr

/-- Source `Agent.__post_init__`: reject empty role/goal, then default the
`model` and `temperature` keys of `llm_config` when absent. -/
def agent_post_init (a : Agent) : Except String Agent :=
  if a.role = "" then .error "Agent role cannot be empty"
  else if a.goal = "" then .error "Agent goal cannot be empty"
  else
    let lc := if dcontains "model" a.llm_config then a.llm_config
              else dinsert "model" (Val.str "llama3-70b") a.llm_config
    let lc2 := if dcontains "temperature" lc then lc
               else dinsert "temperature" (Val.num (7/10)) lc
    .ok { a with llm_config := lc2 }

/-- Task dataclass (core/task.py).  Dependencies are recorded by id; see
the embedding notes in the file header. -/
structure Task where
  description : String
  agent : Agent
  expected_output : String := ""
  dependencies : List String := []
  context : List (String × Val) := []
  async_execution : Bool := false
  task_id : String
  status : TaskStatus := .pending
  result : Option String := none
  error : Option String := none
deriving DecidableEq, Repr

/-- Source `Task.__post_init__`: reject an empty description.  (The second
Python check `if not self.agent` can never fire: a dataclass instance is
always truthy.) -/
def task_post_init (t : Task) : Except String Task :=
  if t.description = "" then .error "Task description cannot be empty"
  else .ok t

/-- Resolve a task id inside a crew's task list (first match; unique
under the Nodup well-formedness hypothesis). -/
def taskById (tasks : List Task) (tid : String) : Option Task :=
  tasks.find? (fun u => u.task_id = tid)

/-- Status of the task a dependency id resolves to. -/
def depStatus (tasks : List Task) (tid : String) : Option TaskStatus :=
  (taskById tasks tid).map Task.status

/-- Source `Task.is_ready`: all dependencies have status completed. -/
def Task.is_ready (tasks : List Task) (t : Task) : Bool :=
  t.dependencies.all (fun d => depStatus tasks d = some TaskStatus.completed)

/-- Source `Task.mark_in_progress`. -/
def Task.mark_in_progress (t : Task) : Task :=
  { t with status := .in_progress }

/-- Source `Task.mark_completed`. -/
def Task.mark_completed (t : Task) (result : String) : Task :=
  { t with status := .completed, result := some result }

/-- Source `Task.mark_failed`. -/
def Task.mark_failed (t : Task) (error : String) : Task :=
  { t with status := .failed, error := some error }

/-- Source `Task.mark_skipped`. -/
def Task.mark_skipped (t : Task) : Task :=
  { t with status := .skipped }

/-- One mark-operation of the task state machine. -/
inductive MarkOp where
  | inProgress
  | completedOp (result : String)
  | failedOp (error : String)
  | skippedOp
deriving DecidableEq, Repr

/-- Apply one mark-operation. -/
def applyMark (op : MarkOp) (t : Task) : Task :=
  match op with
  | .inProgress => t.mark_in_progress
  | .completedOp r => t.mark_completed r
  | .failedOp e => t.mark_failed e
  | .skippedOp => t.mark_skipped

/-- Apply a sequence of mark-operations, first element first. -/
def applyMarks (ops : List MarkOp) (t : Task) : Task :=
  ops.foldl (fun u op => applyMark op u) t

/-- The transition edges asserted by the specification: pending may move
to in_progress or skipped; in_progress may move to completed or failed;
nothing else. -/
def specAllowed : TaskStatus → TaskStatus → Bool
  | .pending, .in_progress => true
  | .pending, .skipped => true
  | .in_progress, .completed => true
  | .in_progress, .failed => true
  | _, _ => false

/-- The `llm_config` defaulting step of `Agent.__post_init__`, on the
dict itself. -/
def defaultLlm (lc : List (String × Val)) : List (String × Val) :=
  let lc1 := if dcontains "model" lc then lc
             else dinsert "model" (Val.str "llama3-70b") lc
  if dcontains "temperature" lc1 then lc1
  else dinsert "temperature" (Val.num (7/10)) lc1

/-- Serialized agent record (`Agent.to_dict`; one JSON object with these
fixed keys). -/
structure AgentDict where
  agent_id : String
  role : String
  goal : String
  backstory : String
  tools : List String
  llm_config : List (String × Val)
  verbose : Bool
  max_iterations : Nat
  allow_delegation : Bool
  memory_enabled : Bool
deriving DecidableEq, Repr

/-- Source `Agent.to_dict`. -/
def Agent.to_dict (a : Agent) : AgentDict :=
  ⟨a.agent_id, a.role, a.goal, a.backstory, a.tools, a.llm_config,
    a.verbose, a.max_iterations, a.allow_delegation, a.memory_enabled⟩

/-- Source `Agent.from_dict`: rebuild the dataclass from a record (the record
produced by `to_dict` always carries every key, so the Python `.get`
defaults never fire here) and run `__post_init__`. -/
def Agent.from_dict (d : AgentDict) : Except String Agent :=
  agent_post_init ⟨d.role, d.goal, d.backstory, d.tools, d.llm_config,
    d.agent_id, d.verbose, d.max_iterations, d.allow_delegation, d.memory_enabled⟩

/-- One agent entry of a parsed YAML document: each optional field is
`none` exactly when the corresponding key is absent from the mapping
(`YAMLWorkflowParser._parse_single_agent` reads it with `in` / `.get`). -/
structure AgentConfig where
  role : Option String := none
  goal : Option String := none
  backstory : Option String := none
  tools : Option (List String) := none
  llm_config : Option (List (String × Val)) := none
  model : Option Val := none
  temperature : Option Val := none
  verbose : Option Bool := none
  max_iterations : Option Nat := none
  allow_delegation : Option Bool := none
  memory_enabled : Option Bool := none
deriving DecidableEq, Repr

/-- The `llm_config` assembly step of `_parse_single_agent`: start from
the nested `llm_config` mapping if given, else from the `model`
shorthand; a top-level `temperature` key is then written into it. -/
def parseLlm (cfg : AgentConfig) : List (String × Val) :=
  let lc : List (String × Val) :=
    match cfg.llm_config with
    | some lc => lc
    | none =>
      match cfg.model with
      | some m => dinsert "model" m []
      | none => []
  match cfg.temperature with
  | some tv => dinsert "temperature" tv lc
  | none => lc

/-- Source `YAMLWorkflowParser._parse_single_agent`.  `fresh` stands for the
uuid the Agent constructor would generate. -/
def parse_single_agent (fresh : String) (cfg : AgentConfig) : Except String Agent :=
  match cfg.role with
  | none => .error "Agent missing role"
  | some role =>
    match cfg.goal with
    | none => .error "Agent missing goal"
    | some goal =>
      agent_post_init
        { role := role, goal := goal, backstory := cfg.backstory.getD "",
          tools := cfg.tools.getD [], llm_config := parseLlm cfg, agent_id := fresh,
          verbose := cfg.verbose.getD true,
          max_iterations := cfg.max_iterations.getD 15,
          allow_delegation := cfg.allow_delegation.getD false,
          memory_enabled := cfg.memory_enabled.getD true }

/-- What C10 asserts about a constructed agent's `llm_config` relative
to the caller-supplied one: both keys present, defaults filled in only
when absent, supplied values untouched. -/
def llm_defaulted (inLc outLc : List (String × Val)) : Prop :=
  dcontains "model" outLc = true ∧ dcontains "temperature" outLc = true ∧
  (dcontains "model" inLc = false →
    dlookup "model" outLc = some (Val.str "llama3-70b")) ∧
  (∀ v, dlookup "model" inLc = some v → dlookup "model" outLc = some v) ∧
  (dcontains "temperature" inLc = false →
    dlookup "temperature" outLc = some (Val.num (7/10))) ∧
  (∀ v, dlookup "temperature" inLc = some v → dlookup "temperature" outLc = some v)

/-- Source `Scratchpad.set` with no backend (in-process dict). -/
def Scratchpad.set (k : String) (v : α) (pad : List (String × α)) : List (String × α) :=
  dinsert k v pad

/-- Source `Scratchpad.get` with no backend. -/
def Scratchpad.get (pad : List (String × α)) (k : String) (default : α) : α :=
  (dlookup k pad).getD default

/-- Source `Scratchpad.delete` with no backend: returns whether the key existed
together with the updated store. -/
def Scratchpad.delete (k : String) (pad : List (String × α)) : Bool × List (String × α) :=
  if dcontains k pad then (true, ddelete k pad) else (false, pad)

/-- Source `ProcessType` enum (core/crew.py). -/
inductive ProcessType where
  | sequential
  | parallel
  | hierarchical
deriving DecidableEq, Repr

/-- Source `process.value`. -/
def processToString : ProcessType → String
  | .sequential => "sequential"
  | .parallel => "parallel"
  | .hierarchical => "hierarchical"

/-- Source `ProcessType(s)`. -/
def processOfString (s : String) : Except String ProcessType :=
  if s = "sequential" then .ok .sequential
  else if s = "parallel" then .ok .parallel
  else if s = "hierarchical" then .ok .hierarchical
  else .error ("ValueError: " ++ s ++ " is not a valid ProcessType")

/-- Crew dataclass (core/crew.py), prior to `__post_init__`. -/
structure Crew where
  agents : List Agent
  tasks : List Task
  process : ProcessType := .sequential
  memory : Bool := true
  cache : Bool := false
  verbose : Bool := true
  checkpoint_enabled : Bool := false
  max_rpm : Option Nat := none
  crew_id : String
deriving DecidableEq, Repr

/-- The task-dependency graph as id pairs: exactly the information
`_validate_task_dependencies` reads from the task objects. -/
abbrev DepGraph := List (String × List String)

/-- Graph of a crew's task list. -/
def depGraph (tasks : List Task) : DepGraph :=
  tasks.map (fun t => (t.task_id, t.dependencies))

/-- Out-edges of a node (first entry with that id; unique under the
Nodup hypothesis; an id that is no entry has no out-edges, which under
the closure hypothesis never arises for a reachable node). -/
def depsOf (g : DepGraph) (tid : String) : List String :=
  match g.find? (fun p => p.1 = tid) with
  | some p => p.2
  | none => []

/-- One dependency edge. -/
def depEdge (g : DepGraph) (a b : String) : Prop :=
  b ∈ depsOf g a

/-- A cycle is reachable from `a`. -/
def HasCycleFrom (g : DepGraph) (a : String) : Prop :=
  ∃ c, Relation.ReflTransGen (depEdge g) a c ∧ Relation.TransGen (depEdge g) c c

/-- Some node of the graph lies on a (direct or transitive) cycle. -/
def GraphHasCycle (g : DepGraph) : Prop :=
  ∃ tid ∈ g.map Prod.fst, Relation.TransGen (depEdge g) tid tid

/- `has_cycle` and its dependency loop (crew.py lines 93-105) are
embedded with a fuel argument that bounds the recursion depth; the call
depth is bounded by the number of distinct ids because every frame first
inserts its unvisited id into `visited`, so the fuel chosen by
`validate_task_dependencies` is never exhausted (proved below).
`none` models `return True` (cycle found; the partially-updated sets are
discarded because the caller raises), `some visited` models
`return False` with the updated `visited` set; `rec_stack` additions are
undone on every False return, so the caller's own `rec_stack` value is
the one that persists. -/
/-- The `for dep in task.dependencies` loop inside `has_cycle`,
parametric in the recursive call (so that the pair of functions is
structurally recursive and evaluates by reduction). -/
def visitDepsF (hcf : String → List String → List String → Option (List String)) :
    List String → List String → List String → Option (List String)
  | [], visited, _ => some visited
  | d :: ds, visited, recStack =>
    if d ∉ visited then
      match hcf d visited recStack with
      | none => none
      | some visited2 => visitDepsF hcf ds visited2 recStack
    else if d ∈ recStack then none
    else visitDepsF hcf ds visited recStack

/-- Source `has_cycle(task, visited, rec_stack)`. -/
def hasCycleFuel (g : DepGraph) : Nat → String → List String → List String → Option (List String)
  | 0, _, _, _ => none
  | fuel + 1, tid, visited, recStack =>
      visitDepsF (hasCycleFuel g fuel) (depsOf g tid) (tid :: visited) (tid :: recStack)

/-- The dependency loop at a given remaining depth. -/
def visitDeps (g : DepGraph) (fuel : Nat) :
    List String → List String → List String → Option (List String) :=
  visitDepsF (hasCycleFuel g fuel)

/-- All ids mentioned by the graph; the DFS only ever visits these. -/
def allIds (g : DepGraph) : List String :=
  g.map Prod.fst ++ (g.map Prod.snd).flatten

/-- The `for task in self.tasks` loop of `_validate_task_dependencies`:
`visited` persists across iterations, each unvisited task starts a DFS
with a fresh empty `rec_stack`. -/
def validateLoop (g : DepGraph) (fuel : Nat) : List String → List String → Except String (List String)
  | [], visited => .ok visited
  | tid :: rest, visited =>
    if tid ∈ visited then validateLoop g fuel rest visited
    else
      match hasCycleFuel g fuel tid visited [] with
      | none => .error "Circular dependency detected in tasks"
      | some visited2 => validateLoop g fuel rest visited2

/-- Source `Crew._validate_task_dependencies`. -/
def validate_task_dependencies (tasks : List Task) : Except String Unit :=
  let g := depGraph tasks
  match validateLoop g ((allIds g).length + 1) (g.map Prod.fst) [] with
  | .ok _ => .ok ()
  | .error e => .error e

/-- Source `Crew.__post_init__`: non-empty agents and tasks, every task's agent
id among the crew's agent ids, then cycle detection.  (The source
membership error interpolates the offending role; the exact text of that
message is not modeled.)  On success the crew itself is usable. -/
def crew_post_init (c : Crew) : Except String Crew :=
  if c.agents.isEmpty then .error "Crew must have at least one agent"
  else if c.tasks.isEmpty then .error "Crew must have at least one task"
  else
    match c.tasks.find? (fun t => decide (t.agent.agent_id ∉ c.agents.map Agent.agent_id)) with
    | some _ => .error "Task agent not in crew agents"
    | none =>
      match validate_task_dependencies c.tasks with
      | .ok _ => .ok c
      | .error e => .error e

/-- Number of graph ids not yet visited: the DFS termination measure. -/
def freeCount (U visited : List String) : Nat :=
  (U.filter (fun x => decide (x ∉ visited))).length

/-- Induction statement for `hasCycleFuel`: under the depth invariants,
`none` means a cycle is reachable from the start node and `some` returns
a grown visited set all of whose non-stack members are cycle-free. -/
def HCF_Spec (g : DepGraph) (U : List String) (fuel : Nat) : Prop :=
  ∀ tid visited recStack,
    freeCount U visited < fuel →
    tid ∈ U → tid ∉ visited →
    visited ⊆ U →
    recStack ⊆ visited →
    (∀ c ∈ recStack, Relation.ReflTransGen (depEdge g) c tid) →
    (∀ v ∈ visited, v ∉ recStack → ¬ HasCycleFrom g v) →
    (match hasCycleFuel g fuel tid visited recStack with
     | none => HasCycleFrom g tid
     | some visited2 =>
        visited ⊆ visited2 ∧ tid ∈ visited2 ∧ visited2 ⊆ U ∧
        (∀ v ∈ visited2, v ∉ recStack → ¬ HasCycleFrom g v))

/-- Induction statement for `visitDeps` (the dependency loop of a node
`cur` whose edges go to every element of `ds`). -/
def VD_Spec (g : DepGraph) (U : List String) (fuel : Nat) : Prop :=
  ∀ ds cur visited recStack,
    freeCount U visited < fuel →
    (∀ d ∈ ds, depEdge g cur d) →
    ds ⊆ U →
    visited ⊆ U →
    recStack ⊆ visited →
    (∀ c ∈ recStack, Relation.ReflTransGen (depEdge g) c cur) →
    (∀ v ∈ visited, v ∉ recStack → ¬ HasCycleFrom g v) →
    (match visitDeps g fuel ds visited recStack with
     | none => HasCycleFrom g cur
     | some visited2 =>
        visited ⊆ visited2 ∧ visited2 ⊆ U ∧
        (∀ v ∈ visited2, v ∉ recStack → ¬ HasCycleFrom g v) ∧
        (∀ d ∈ ds, ¬ HasCycleFrom g d))

/-- Source `Crew.get_ready_tasks`: pending tasks whose dependencies are all
completed, in task-list order. -/
def get_ready_tasks (tasks : List Task) : List Task :=
  tasks.filter (fun t => decide (t.status = TaskStatus.pending) && Task.is_ready tasks t)

/-- Source `Crew.is_complete`: every task completed or skipped. -/
def is_complete (tasks : List Task) : Bool :=
  tasks.all (fun t =>
    decide (t.status = TaskStatus.completed) || decide (t.status = TaskStatus.skipped))

/-- Source `Crew.has_failed_tasks`. -/
def has_failed_tasks (tasks : List Task) : Bool :=
  tasks.any (fun t => decide (t.status = TaskStatus.failed))

/-- Source `Task.get_prompt`: description, expected output, context entries,
and the non-empty results of dependencies (each tagged with its agent's
role), joined by newlines. -/
def Task.get_prompt (tasks : List Task) (t : Task) : String :=
  let parts := ["# Task\n" ++ t.description]
  let parts := if t.expected_output ≠ "" then
      parts ++ ["\n# Expected Output\n" ++ t.expected_output]
    else parts
  let parts := if t.context ≠ [] then
      parts ++ ["\n# Context"] ++
        t.context.map (fun kv => "- " ++ kv.1 ++ ": " ++ valToString kv.2)
    else parts
  let parts := if t.dependencies ≠ [] then
      parts ++ ["\n# Previous Results"] ++
        t.dependencies.filterMap (fun d =>
          match taskById tasks d with
          | some dep =>
            match dep.result with
            | some r => if r ≠ "" then some ("- " ++ dep.agent.role ++ ": " ++ r) else none
            | none => none
          | none => none)
    else parts
  String.intercalate "\n" parts

/-- Per-task result metadata (`TaskResult.metadata` keys).  The
`execution_time` value is wall-clock time; only its presence is
modeled. -/
structure TRMeta where
  agent_id : String
  agent_role : String
  execution_time : Option Unit := none
deriving DecidableEq, Repr

/-- Source `TaskResult` dataclass. -/
structure TaskResult where
  task_id : String
  success : Bool
  output : String := ""
  error : String := ""
  metadata : TRMeta
deriving DecidableEq, Repr

/-- Source `WorkflowEngine._execute_task` with the turn executor as explicit
collaborator: mark in progress, build the prompt (plus the shared-memory
dump when a scratchpad exists and the agent participates), call the
executor; on success mark completed and publish to the scratchpad, on an
exception mark failed with the error text — the exception is captured,
never re-raised.  Returns the updated task, the updated scratchpad and
the `TaskResult`.  The prompt assembly (task prompt plus the
shared-memory dump when a scratchpad exists, the agent participates and
the store is non-empty) is named separately: -/
def promptWithMemory (tasks : List Task) (pad : Option (List (String × String)))
    (t : Task) : String :=
  let prompt0 := Task.get_prompt tasks t
  match pad with
  | some data =>
    if t.agent.memory_enabled && !data.isEmpty then
      prompt0 ++ "\n\n# Shared Memory\n" ++
        String.join (data.map (fun kv => "- " ++ kv.1 ++ ": " ++ kv.2 ++ "\n"))
    else prompt0
  | none => prompt0

/-- Source `WorkflowEngine._execute_task` proper. -/
def execute_task (exec : Agent → String → Except String String)
    (tasks : List Task) (pad : Option (List (String × String))) (t : Task) :
    Task × Option (List (String × String)) × TaskResult :=
  let t1 := t.mark_in_progress
  match exec t.agent (promptWithMemory tasks pad t) with
  | .ok output =>
      (t1.mark_completed output,
       pad.map (fun data => Scratchpad.set ("task_" ++ t.task_id ++ "_result") output data),
       { task_id := t.task_id, success := true, output := output, error := "",
         metadata := { agent_id := t.agent.agent_id, agent_role := t.agent.role,
                       execution_time := some () } })
  | .error e =>
      (t1.mark_failed e, pad,
       { task_id := t.task_id, success := false, output := "", error := e,
         metadata := { agent_id := t.agent.agent_id, agent_role := t.agent.role } })

/-- Mutation of the selected task object inside the crew's task list:
replace the entry with that id (the unique one, under the Nodup
hypothesis). -/
def updateTask (tasks : List Task) (tid : String) (t2 : Task) : List Task :=
  tasks.map (fun u => if u.task_id = tid then t2 else u)

/-- Metadata of `CrewOutput` (fixed keys). -/
structure OutMeta where
  process : String
  total_tasks : Nat
  completed_tasks : Nat
deriving DecidableEq, Repr

/-- Source `CrewOutput` dataclass; `tasks_output` holds the `to_dict` forms of
the task results, which carry exactly the `TaskResult` fields. -/
structure CrewOutput where
  tasks_output : List TaskResult
  final_output : String
  success : Bool
  metadata : OutMeta
deriving DecidableEq, Repr

/-- Source `WorkflowEngine._generate_final_output`. -/
def generate_final_output (tasks_output : List TaskResult) : String :=
  let parts := ["# Workflow Results\n"] ++
    (List.enumFrom 1 tasks_output).foldr (fun (p : Nat × TaskResult) acc =>
      (if p.2.success then
        ["\n## Task " ++ toString p.1, "Output: " ++ p.2.output]
      else
        ["\n## Task " ++ toString p.1 ++ " (FAILED)", "Error: " ++ p.2.error]) ++ acc) []
  String.intercalate "\n" parts

/-- The `CrewOutput` built when `_execute_sequential` leaves its loop. -/
def mkOutput (process : ProcessType) (tasks : List Task)
    (acc : List TaskResult) (completed : Nat) : CrewOutput :=
  { tasks_output := acc, final_output := generate_final_output acc,
    success := !has_failed_tasks tasks,
    metadata := { process := processToString process,
                  total_tasks := tasks.length, completed_tasks := completed } }

/-- Outcome of `_execute_sequential`: the returned `CrewOutput` together
with the final task-list and scratchpad state, the RuntimeError branch,
or exhausted fuel (the fuel used by `execute_sequential` is never
exhausted: every looping iteration executes one pending task, which
leaves pending). -/
inductive SeqOutcome where
  | out (tasks : List Task) (pad : Option (List (String × String))) (o : CrewOutput)
  | invariantError (tasks : List Task) (pad : Option (List (String × String)))
  | fuelOut (tasks : List Task) (pad : Option (List (String × String)))
deriving DecidableEq, Repr

/-- The while-loop of `WorkflowEngine._execute_sequential`: while the
crew is not complete, take the ready set; if it is empty, break when a
task has failed and raise RuntimeError otherwise; else execute exactly
the first ready task and iterate. -/
def execSeqAux (exec : Agent → String → Except String String) (process : ProcessType) :
    Nat → List Task → Option (List (String × String)) → List TaskResult → Nat → SeqOutcome
  | 0, tasks, pad, _, _ => .fuelOut tasks pad
  | fuel + 1, tasks, pad, acc, completed =>
    if is_complete tasks then .out tasks pad (mkOutput process tasks acc completed)
    else
      match get_ready_tasks tasks with
      | [] =>
        if has_failed_tasks tasks then .out tasks pad (mkOutput process tasks acc completed)
        else .invariantError tasks pad
      | t :: _ =>
        let r := execute_task exec tasks pad t
        execSeqAux exec process fuel (updateTask tasks t.task_id r.1) r.2.1
          (acc ++ [r.2.2]) (completed + 1)

/-- Source `WorkflowEngine._execute_sequential`. -/
def execute_sequential (exec : Agent → String → Except String String)
    (process : ProcessType) (tasks : List Task)
    (pad : Option (List (String × String))) : SeqOutcome :=
  execSeqAux exec process (tasks.length + 1) tasks pad [] 0

/-- Number of pending tasks: the loop's termination measure. -/
def pendingCount (tasks : List Task) : Nat :=
  tasks.countP (fun t => decide (t.status = TaskStatus.pending))

/-- Serialized task record (`Task.to_dict`; one JSON object with these
fixed keys, dependency edges reduced to ids). -/
structure TaskDict where
  task_id : String
  description : String
  agent_id : String
  expected_output : String
  dependencies : List String
  context : List (String × Val)
  async_execution : Bool
  status : String
  result : Option String
  error : Option String
deriving DecidableEq, Repr

/-- Source `Task.to_dict`. -/
def Task.to_dict (t : Task) : TaskDict :=
  ⟨t.task_id, t.description, t.agent.agent_id, t.expected_output, t.dependencies,
    t.context, t.async_execution, statusToString t.status, t.result, t.error⟩

/-- Source `Task.from_dict`: rebuild the dataclass (running `__post_init__` and
the `TaskStatus` enum constructor, both of which can raise); the
supplied dependency task objects are recorded by id. -/
def Task.from_dict (d : TaskDict) (agent : Agent) (deps : List Task) : Except String Task := do
  let st ← statusOfString d.status
  task_post_init
    { task_id := d.task_id, description := d.description, agent := agent,
      expected_output := d.expected_output, dependencies := deps.map Task.task_id,
      context := d.context, async_execution := d.async_execution, status := st,
      result := d.result, error := d.error }

/-- The dataclass constructor call inside `Agent.from_dict` (all fields
read from the record). -/
def AgentDict.toAgent (d : AgentDict) : Agent :=
  ⟨d.role, d.goal, d.backstory, d.tools, d.llm_config, d.agent_id, d.verbose,
    d.max_iterations, d.allow_delegation, d.memory_enabled⟩

/-- The agent `Agent.from_dict` yields on success: the record's fields
with `llm_config` defaulted by `__post_init__`. -/
def defAgentD (d : AgentDict) : Agent :=
  { d.toAgent with llm_config := defaultLlm d.llm_config }

/-- Crew-level record (`Crew.to_dict`). -/
structure CrewDict where
  crew_id : String
  agents : List AgentDict
  tasks : List TaskDict
  process : String
  memory : Bool
  cache : Bool
  verbose : Bool
  checkpoint_enabled : Bool
  max_rpm : Option Nat
deriving DecidableEq, Repr

/-- Source `Crew.to_dict`. -/
def Crew.to_dict (c : Crew) : CrewDict :=
  ⟨c.crew_id, c.agents.map Agent.to_dict, c.tasks.map Task.to_dict,
    processToString c.process, c.memory, c.cache, c.verbose, c.checkpoint_enabled,
    c.max_rpm⟩

/-- The checkpoint record: top-level keys `crew`, `agents`, `tasks`.
Writing and re-reading it through json.dump / json.load is the identity
on this fixed-keys record and is embedded as such. -/
structure CheckpointData where
  crew : CrewDict
  agents : List AgentDict
  tasks : List TaskDict
deriving DecidableEq, Repr

/-- Source `CheckpointManager.save`. -/
def CheckpointManager.save (c : Crew) : CheckpointData :=
  ⟨c.to_dict, c.agents.map Agent.to_dict, c.tasks.map Task.to_dict⟩

/-- The agent loop of `CheckpointManager.load`: rebuild each agent and
populate `agent_map`. -/
def loadAgents : List AgentDict → List Agent → List (String × Agent) →
    Except String (List Agent × List (String × Agent))
  | [], acc, amap => .ok (acc, amap)
  | d :: ds, acc, amap => do
    let a ← Agent.from_dict d
    loadAgents ds (acc ++ [a]) (dinsert a.agent_id a amap)

/-- First task pass of `load`: resolve the agent reference
(KeyError when absent), materialize the task with no dependency edges,
populate `task_map`. -/
def loadTasksPass1 (amap : List (String × Agent)) :
    List TaskDict → List Task → List (String × Task) →
    Except String (List Task × List (String × Task))
  | [], acc, tmap => .ok (acc, tmap)
  | d :: ds, acc, tmap => do
    let a ← match dlookup d.agent_id amap with
      | some a => Except.ok a
      | none => Except.error ("KeyError: " ++ d.agent_id)
    let t ← Task.from_dict d a []
    loadTasksPass1 amap ds (acc ++ [t]) (dinsert t.task_id t tmap)

/-- The list comprehension resolving dependency ids in `task_map`
(KeyError when a dependency id is unknown). -/
def lookupDeps (tmap : List (String × Task)) : List String → Except String (List Task)
  | [] => .ok []
  | did :: ds => do
    let dt ← match dlookup did tmap with
      | some dt => Except.ok dt
      | none => Except.error ("KeyError: " ++ did)
    let rest ← lookupDeps tmap ds
    .ok (dt :: rest)

/-- Second pass of `load`: wire dependency edges by id on each task. -/
def wireDeps (tmap : List (String × Task)) :
    List (TaskDict × Task) → Except String (List Task)
  | [] => .ok []
  | (d, t) :: rest => do
    let deps ← lookupDeps tmap d.dependencies
    let rest2 ← wireDeps tmap rest
    .ok ({ t with dependencies := deps.map Task.task_id } :: rest2)

/-- Source `CheckpointManager.load` applied to a stored record: rebuild agents,
two-pass task reconstruction, rebuild the crew (running
`Crew.__post_init__`), then restore the saved `crew_id` over the
freshly generated one (modeled by the placeholder `""`). -/
def CheckpointManager.load (data : CheckpointData) : Except String Crew := do
  let (agents, amap) ← loadAgents data.agents [] []
  let (tasks1, tmap) ← loadTasksPass1 amap data.tasks [] []
  let tasks2 ← wireDeps tmap (data.tasks.zip tasks1)
  let process ← processOfString data.crew.process
  let crew ← crew_post_init
    { agents := agents, tasks := tasks2, process := process,
      memory := data.crew.memory, cache := data.crew.cache,
      verbose := data.crew.verbose, checkpoint_enabled := data.crew.checkpoint_enabled,
      max_rpm := data.crew.max_rpm, crew_id := "" }
  .ok { crew with crew_id := data.crew.crew_id }

/-- A concrete agent used by small witness scenarios. -/
def wAgent : Agent :=
  { role := "writer", goal := "write", agent_id := "a1" }

/-- A concrete task used by small witness scenarios. -/
def wTask : Task :=
  { description := "draft", agent := wAgent, task_id := "t1" }

/-- A second concrete task depending on the first. -/
def wTask2 : Task :=
  { description := "review", agent := wAgent, task_id := "t2", dependencies := ["t1"] }

/-- A small two-task acyclic crew for witness scenarios. -/
def wCrew : Crew :=
  { agents := [wAgent], tasks := [wTask, wTask2], crew_id := "c1" }

/-- A concrete failed task for witness scenarios. -/
def wTaskF : Task :=
  { description := "f", agent := wAgent, task_id := "tf", status := .failed }

/-- A concrete pending task blocked on the failed one. -/
def wTaskP : Task :=
  { description := "p", agent := wAgent, task_id := "tp", dependencies := ["tf"] }

/-- A turn executor that always succeeds. -/
def wExec : Agent → String → Except String String :=
  fun _ _ => .ok "done"

/-- A turn executor that always raises. -/
def wExecFail : Agent → String → Except String String :=
  fun _ _ => .error "boom"

theorem dlookup_append_some {k : String} {d1 : List (String × α)} {v : α}
    (h : dlookup k d1 = some v) (d2 : List (String × α)) :
    dlookup k (d1 ++ d2) = some v := by
  induction d1 with
  | nil => simp [dlookup] at h
  | cons kv rest ih =>
    rcases kv with ⟨k2, w⟩
    by_cases hk : k2 = k
    · simp [dlookup, hk] at h ⊢
      exact h
    · simp [dlookup, hk] at h ⊢
      exact ih h

theorem dlookup_append_none {k : String} {d1 : List (String × α)}
    (h : dlookup k d1 = none) (d2 : List (String × α)) :
    dlookup k (d1 ++ d2) = dlookup k d2 := by
  induction d1 with
  | nil => simp
  | cons kv rest ih =>
    rcases kv with ⟨k2, w⟩
    by_cases hk : k2 = k
    · simp [dlookup, hk] at h
    · simp [dlookup, hk] at h ⊢
      exact ih h

theorem dlookup_replaceAll (k : String) (v : α) (d : List (String × α)) :
    dlookup k (d.map fun kv => (kv.1, if kv.1 = k then v else kv.2))
      = (dlookup k d).map (fun _ => v) := by
  induction d with
  | nil => simp [dlookup]
  | cons kv rest ih =>
    rcases kv with ⟨k2, w⟩
    by_cases hk : k2 = k
    · subst hk
      simp [dlookup, ih]
    · simp [dlookup, hk, ih]

theorem dlookup_replaceAll_ne {k k2 : String} (h : k2 ≠ k) (v : α)
    (d : List (String × α)) :
    dlookup k (d.map fun kv => (kv.1, if kv.1 = k2 then v else kv.2))
      = dlookup k d := by
  induction d with
  | nil => simp
  | cons kv rest ih =>
    rcases kv with ⟨k3, w⟩
    by_cases hk2 : k3 = k
    · subst hk2
      simp [dlookup, Ne.symm h, ih]
    · simp [dlookup, hk2, ih]

theorem dcontains_iff {k : String} {d : List (String × α)} :
    dcontains k d = true ↔ ∃ v, dlookup k d = some v := by
  simp [dcontains, Option.isSome_iff_exists]

theorem dlookup_of_not_dcontains {k : String} {d : List (String × α)}
    (h : ¬ dcontains k d = true) : dlookup k d = none := by
  rcases hl : dlookup k d with _ | w
  · rfl
  · exact absurd (dcontains_iff.mpr ⟨w, hl⟩) h

theorem dlookup_dinsert_self (k : String) (v : α) (d : List (String × α)) :
    dlookup k (dinsert k v d) = some v := by
  unfold dinsert
  by_cases h : dcontains k d = true
  · rw [if_pos h, dlookup_replaceAll]
    obtain ⟨w, hw⟩ := dcontains_iff.mp h
    rw [hw]
    rfl
  · rw [if_neg h, dlookup_append_none (dlookup_of_not_dcontains h)]
    simp [dlookup]

theorem dlookup_dinsert_ne {k k2 : String} (h : k2 ≠ k) (v : α)
    (d : List (String × α)) :
    dlookup k (dinsert k2 v d) = dlookup k d := by
  unfold dinsert
  by_cases hc : dcontains k2 d = true
  · rw [if_pos hc, dlookup_replaceAll_ne h]
  · rw [if_neg hc]
    rcases hl : dlookup k d with _ | w
    · rw [dlookup_append_none hl]
      simp [dlookup, h]
    · rw [dlookup_append_some hl]

theorem dcontains_dinsert_self (k : String) (v : α) (d : List (String × α)) :
    dcontains k (dinsert k v d) = true :=
  dcontains_iff.mpr ⟨v, dlookup_dinsert_self k v d⟩

theorem dcontains_dinsert_ne {k k2 : String} (h : k2 ≠ k) (v : α)
    (d : List (String × α)) :
    dcontains k (dinsert k2 v d) = dcontains k d := by
  simp [dcontains, dlookup_dinsert_ne h]

theorem dlookup_ddelete_self (k : String) (d : List (String × α)) :
    dlookup k (ddelete k d) = none := by
  induction d with
  | nil => rfl
  | cons kv rest ih =>
    rcases kv with ⟨k2, w⟩
    by_cases hk : k2 = k
    · subst hk
      simp [ddelete, ih]
    · simp [ddelete, dlookup, hk, ih]

theorem dlookup_ddelete_ne {k k2 : String} (h : k2 ≠ k)
    (d : List (String × α)) :
    dlookup k (ddelete k2 d) = dlookup k d := by
  induction d with
  | nil => rfl
  | cons kv rest ih =>
    rcases kv with ⟨k3, w⟩
    by_cases hk : k3 = k2
    · subst hk
      simp [ddelete, dlookup, h, ih]
    · simp [ddelete, dlookup, hk, ih]

/-- C8.  In-process scratchpad contract: get-after-set returns the value
just set; after delete, get returns the default; delete reports whether
the key existed and a second delete of the same key returns false; and
operations on other keys never disturb an entry (no expiry of any
kind). -/
theorem scratchpad_contract (pad : List (String × α)) (k k2 : String)
    (v default : α) (h : k2 ≠ k) :
    Scratchpad.get (Scratchpad.set k v pad) k default = v ∧
    Scratchpad.get (Scratchpad.delete k pad).2 k default = default ∧
    ((Scratchpad.delete k pad).1 = true ↔ dcontains k pad = true) ∧
    (Scratchpad.delete k (Scratchpad.delete k pad).2).1 = false ∧
    Scratchpad.get (Scratchpad.set k2 v pad) k default
      = Scratchpad.get pad k default ∧
    Scratchpad.get (Scratchpad.delete k2 pad).2 k default
      = Scratchpad.get pad k default := by
  have hdel2 : dcontains k (ddelete k pad) = false := by
    simp [dcontains, dlookup_ddelete_self]
  refine ⟨?_, ?_, ?_, ?_, ?_, ?_⟩
  · simp [Scratchpad.get, Scratchpad.set, dlookup_dinsert_self]
  · by_cases hc : dcontains k pad = true
    · simp [Scratchpad.get, Scratchpad.delete, hc, dlookup_ddelete_self]
    · have hnone : dlookup k pad = none := by
        rcases hl : dlookup k pad with _ | w
        · rfl
        · exact absurd (dcontains_iff.mpr ⟨w, hl⟩) hc
      simp [Scratchpad.get, Scratchpad.delete, hc, hnone]
  · by_cases hc : dcontains k pad = true <;> simp [Scratchpad.delete, hc]
  · by_cases hc : dcontains k pad = true
    · simp [Scratchpad.delete, hc, hdel2]
    · simp [Scratchpad.delete, hc]
  · simp [Scratchpad.get, Scratchpad.set, dlookup_dinsert_ne h]
  · by_cases hc : dcontains k2 pad = true
    · simp [Scratchpad.get, Scratchpad.delete, hc, dlookup_ddelete_ne h]
    · simp [Scratchpad.get, Scratchpad.delete, hc]

/-- Witness for C8 at a concrete store, keys and values. -/
theorem scratchpad_contract_witness :
    ("b" : String) ≠ "a" ∧
    (Scratchpad.get (Scratchpad.set "a" (5 : Nat) [("a", 1)]) "a" 0 = 5 ∧
     Scratchpad.get (Scratchpad.delete "a" [("a", 1)]).2 "a" 0 = 0 ∧
     ((Scratchpad.delete "a" [("a", (1 : Nat))]).1 = true ↔
       dcontains "a" [("a", (1 : Nat))] = true) ∧
     (Scratchpad.delete "a" (Scratchpad.delete "a" [("a", (1 : Nat))]).2).1 = false ∧
     Scratchpad.get (Scratchpad.set "b" (5 : Nat) [("a", 1)]) "a" 0
       = Scratchpad.get [("a", 1)] "a" 0 ∧
     Scratchpad.get (Scratchpad.delete "b" [("a", (1 : Nat))]).2 "a" 0
       = Scratchpad.get [("a", 1)] "a" 0) :=
  ⟨by decide, scratchpad_contract [("a", 1)] "a" "b" 5 0 (by decide)⟩

theorem agent_post_init_ok {a : Agent} (h1 : a.role ≠ "") (h2 : a.goal ≠ "") :
    agent_post_init a = .ok { a with llm_config := defaultLlm a.llm_config } := by
  unfold agent_post_init defaultLlm
  rw [if_neg h1, if_neg h2]

theorem model_ne_temperature : ("model" : String) ≠ "temperature" := by decide

theorem llm_defaulted_defaultLlm (lc : List (String × Val)) :
    llm_defaulted lc (defaultLlm lc) := by
  have hmt : ("model" : String) ≠ "temperature" := model_ne_temperature
  have htm : ("temperature" : String) ≠ "model" := fun h => hmt h.symm
  by_cases hM : dcontains "model" lc = true <;>
    by_cases hT : dcontains "temperature" lc = true <;>
      · constructor
        · simp_all [defaultLlm, dcontains_dinsert_self, dcontains_dinsert_ne htm,
            dcontains_dinsert_ne hmt]
        · constructor
          · simp_all [defaultLlm, dcontains_dinsert_self, dcontains_dinsert_ne htm,
              dcontains_dinsert_ne hmt]
          · refine ⟨?_, ?_, ?_, ?_⟩ <;>
              simp_all [defaultLlm, dcontains_dinsert_self, dcontains_dinsert_ne htm,
                dcontains_dinsert_ne hmt, dlookup_dinsert_self, dlookup_dinsert_ne htm,
                dlookup_dinsert_ne hmt, dcontains_iff]

/-- C10.  Every successfully constructed agent — direct construction,
`Agent.from_dict`, or the YAML parser — carries both the `model` and
`temperature` keys in `llm_config`; omitted keys get the defaults
`llama3-70b` / `0.7`, and caller-supplied values survive unchanged (for
the parser, a top-level `temperature` key overrides one inside
`llm_config`, matching the source). -/
theorem agent_llm_config_invariant (a : Agent) (d : AgentDict)
    (cfg : AgentConfig) (fresh role goal : String)
    (ha1 : a.role ≠ "") (ha2 : a.goal ≠ "")
    (hd1 : d.role ≠ "") (hd2 : d.goal ≠ "")
    (hc1 : cfg.role = some role) (hc2 : cfg.goal = some goal)
    (hc3 : role ≠ "") (hc4 : goal ≠ "") :
    (∃ a2, agent_post_init a = .ok a2 ∧ llm_defaulted a.llm_config a2.llm_config) ∧
    (∃ a3, Agent.from_dict d = .ok a3 ∧ llm_defaulted d.llm_config a3.llm_config) ∧
    (∃ a4, parse_single_agent fresh cfg = .ok a4 ∧
      dcontains "model" a4.llm_config = true ∧
      dcontains "temperature" a4.llm_config = true ∧
      (∀ lc v, cfg.llm_config = some lc → dlookup "model" lc = some v →
        dlookup "model" a4.llm_config = some v) ∧
      (∀ v, cfg.llm_config = none → cfg.model = some v →
        dlookup "model" a4.llm_config = some v) ∧
      (cfg.llm_config = none → cfg.model = none →
        dlookup "model" a4.llm_config = some (Val.str "llama3-70b")) ∧
      (∀ lc, cfg.llm_config = some lc → dlookup "model" lc = none →
        dlookup "model" a4.llm_config = some (Val.str "llama3-70b")) ∧
      (∀ v, cfg.temperature = some v →
        dlookup "temperature" a4.llm_config = some v) ∧
      (∀ lc v, cfg.temperature = none → cfg.llm_config = some lc →
        dlookup "temperature" lc = some v →
        dlookup "temperature" a4.llm_config = some v) ∧
      (cfg.temperature = none →
        (∀ lc, cfg.llm_config = some lc → dlookup "temperature" lc = none) →
        dlookup "temperature" a4.llm_config = some (Val.num (7/10)))) := by
  have hmt : ("model" : String) ≠ "temperature" := model_ne_temperature
  have htm : ("temperature" : String) ≠ "model" := fun h => hmt h.symm
  refine ⟨⟨_, agent_post_init_ok ha1 ha2, by simpa using llm_defaulted_defaultLlm a.llm_config⟩,
    ⟨_, @agent_post_init_ok ⟨d.role, d.goal, d.backstory, d.tools, d.llm_config,
      d.agent_id, d.verbose, d.max_iterations, d.allow_delegation, d.memory_enabled⟩ hd1 hd2,
      by simpa using llm_defaulted_defaultLlm d.llm_config⟩, ?_⟩
  have hrun : parse_single_agent fresh cfg
      = .ok { role := role, goal := goal, backstory := cfg.backstory.getD "",
              tools := cfg.tools.getD [], llm_config := defaultLlm (parseLlm cfg),
              agent_id := fresh, verbose := cfg.verbose.getD true,
              max_iterations := cfg.max_iterations.getD 15,
              allow_delegation := cfg.allow_delegation.getD false,
              memory_enabled := cfg.memory_enabled.getD true } := by
    unfold parse_single_agent
    rw [hc1, hc2]
    exact agent_post_init_ok hc3 hc4
  obtain ⟨hq1, hq2, hq3, hq4, hq5, hq6⟩ := llm_defaulted_defaultLlm (parseLlm cfg)
  refine ⟨_, hrun, hq1, hq2, ?_, ?_, ?_, ?_, ?_, ?_, ?_⟩
  · intro l v hl hv
    apply hq4
    rcases ht : cfg.temperature with _ | tv
    · simpa only [parseLlm, hl, ht] using hv
    · simp only [parseLlm, hl, ht]
      rw [dlookup_dinsert_ne htm]
      exact hv
  · intro v hl hv
    apply hq4
    rcases ht : cfg.temperature with _ | tv
    · simp only [parseLlm, hl, hv, ht]
      exact dlookup_dinsert_self "model" v []
    · simp only [parseLlm, hl, hv, ht]
      rw [dlookup_dinsert_ne htm]
      exact dlookup_dinsert_self "model" v []
  · intro hl hv
    apply hq3
    rw [Bool.eq_false_iff]
    intro hcont
    obtain ⟨w, hw⟩ := dcontains_iff.mp hcont
    rcases ht : cfg.temperature with _ | tv
    · simp only [parseLlm, hl, hv, ht] at hw
      simp [dlookup] at hw
    · simp only [parseLlm, hl, hv, ht] at hw
      rw [dlookup_dinsert_ne htm] at hw
      simp [dlookup] at hw
  · intro l hl hv
    apply hq3
    rw [Bool.eq_false_iff]
    intro hcont
    obtain ⟨w, hw⟩ := dcontains_iff.mp hcont
    rcases ht : cfg.temperature with _ | tv
    · simp only [parseLlm, hl, ht] at hw
      rw [hv] at hw
      cases hw
    · simp only [parseLlm, hl, ht] at hw
      rw [dlookup_dinsert_ne htm, hv] at hw
      cases hw
  · intro v hv
    apply hq6
    simp only [parseLlm, hv]
    exact dlookup_dinsert_self "temperature" v _
  · intro l v ht hl hv
    apply hq6
    simpa only [parseLlm, ht, hl] using hv
  · intro ht habs
    apply hq5
    rw [Bool.eq_false_iff]
    intro hcont
    obtain ⟨w, hw⟩ := dcontains_iff.mp hcont
    rcases hcl : cfg.llm_config with _ | l
    · rcases hm : cfg.model with _ | m
      · simp only [parseLlm, ht, hcl, hm] at hw
        simp [dlookup] at hw
      · simp only [parseLlm, ht, hcl, hm] at hw
        rw [dlookup_dinsert_ne hmt] at hw
        simp [dlookup] at hw
    · have hnone := habs l hcl
      simp only [parseLlm, ht, hcl] at hw
      rw [hnone] at hw
      cases hw

/-- Witness for C10 at concrete agents and config. -/
theorem agent_llm_config_invariant_witness :
    (wAgent.role ≠ "" ∧ wAgent.goal ≠ "" ∧
     (Agent.to_dict wAgent).role ≠ "" ∧ (Agent.to_dict wAgent).goal ≠ "" ∧
     ({ role := some "r", goal := some "g" } : AgentConfig).role = some "r" ∧
     ({ role := some "r", goal := some "g" } : AgentConfig).goal = some "g" ∧
     ("r" : String) ≠ "" ∧ ("g" : String) ≠ "") ∧
    ((∃ a2, agent_post_init wAgent = .ok a2 ∧
        llm_defaulted wAgent.llm_config a2.llm_config) ∧
     (∃ a3, Agent.from_dict (Agent.to_dict wAgent) = .ok a3 ∧
        llm_defaulted (Agent.to_dict wAgent).llm_config a3.llm_config) ∧
     (∃ a4, parse_single_agent "u1" { role := some "r", goal := some "g" } = .ok a4 ∧
        dcontains "model" a4.llm_config = true ∧
        dcontains "temperature" a4.llm_config = true ∧
        (∀ lc v, ({ role := some "r", goal := some "g" } : AgentConfig).llm_config = some lc →
          dlookup "model" lc = some v → dlookup "model" a4.llm_config = some v) ∧
        (∀ v, ({ role := some "r", goal := some "g" } : AgentConfig).llm_config = none →
          ({ role := some "r", goal := some "g" } : AgentConfig).model = some v →
          dlookup "model" a4.llm_config = some v) ∧
        (({ role := some "r", goal := some "g" } : AgentConfig).llm_config = none →
          ({ role := some "r", goal := some "g" } : AgentConfig).model = none →
          dlookup "model" a4.llm_config = some (Val.str "llama3-70b")) ∧
        (∀ lc, ({ role := some "r", goal := some "g" } : AgentConfig).llm_config = some lc →
          dlookup "model" lc = none →
          dlookup "model" a4.llm_config = some (Val.str "llama3-70b")) ∧
        (∀ v, ({ role := some "r", goal := some "g" } : AgentConfig).temperature = some v →
          dlookup "temperature" a4.llm_config = some v) ∧
        (∀ lc v, ({ role := some "r", goal := some "g" } : AgentConfig).temperature = none →
          ({ role := some "r", goal := some "g" } : AgentConfig).llm_config = some lc →
          dlookup "temperature" lc = some v →
          dlookup "temperature" a4.llm_config = some v) ∧
        (({ role := some "r", goal := some "g" } : AgentConfig).temperature = none →
          (∀ lc, ({ role := some "r", goal := some "g" } : AgentConfig).llm_config = some lc →
            dlookup "temperature" lc = none) →
          dlookup "temperature" a4.llm_config = some (Val.num (7/10))))) :=
  ⟨by refine ⟨by decide, by decide, by decide, by decide, rfl, rfl, by decide, by decide⟩,
    agent_llm_config_invariant wAgent (Agent.to_dict wAgent)
      { role := some "r", goal := some "g" } "u1" "r" "g"
      (by decide) (by decide) (by decide) (by decide) rfl rfl (by decide) (by decide)⟩

/-- C2.  `Task.is_ready` is true iff every dependency resolves to a task
whose status is exactly completed; with an empty dependency list it is
true, and it never consults the task's own status. -/
theorem is_ready_spec (tasks : List Task) (t : Task) :
    (Task.is_ready tasks t = true ↔
      ∀ d ∈ t.dependencies, depStatus tasks d = some TaskStatus.completed) ∧
    (t.dependencies = [] → Task.is_ready tasks t = true) ∧
    (∀ s : TaskStatus,
      Task.is_ready tasks { t with status := s } = Task.is_ready tasks t) := by
  refine ⟨?_, ?_, ?_⟩
  · simp [Task.is_ready, List.all_eq_true]
  · intro h; simp [Task.is_ready, h]
  · intro s; simp [Task.is_ready]

/-- C9 (counterexample).  The mark-operations are unguarded: applying
`mark_in_progress` to an already-completed task moves its status from
completed back to in_progress, a transition the claim's
pending → in_progress → {completed | failed} path does not allow. -/
theorem mark_ops_unguarded_cex :
    ((wTask.mark_completed "r").mark_in_progress).status = TaskStatus.in_progress ∧
    (wTask.mark_completed "r").status = TaskStatus.completed ∧
    specAllowed TaskStatus.completed TaskStatus.in_progress = false := by
  refine ⟨rfl, rfl, rfl⟩

/-- C9 (amended).  No mark-operation ever sets a task's status to
pending: after any nonempty sequence of mark-operations the status is
not pending.  (The operations set their target status unconditionally,
so transitions between non-pending states are not otherwise
restricted.) -/
theorem marks_never_return_to_pending (t : Task) (ops : List MarkOp)
    (h : ops ≠ []) : (applyMarks ops t).status ≠ TaskStatus.pending := by
  induction ops generalizing t with
  | nil => exact absurd rfl h
  | cons op rest ih =>
    cases rest with
    | nil =>
      cases op <;>
        simp [applyMarks, applyMark, Task.mark_in_progress, Task.mark_completed,
          Task.mark_failed, Task.mark_skipped]
    | cons op2 rest2 =>
      have : applyMarks (op :: op2 :: rest2) t
          = applyMarks (op2 :: rest2) (applyMark op t) := rfl
      rw [this]
      exact ih (applyMark op t) (by simp)

theorem filter_sublist_filter {p q : α → Bool} (h : ∀ a, p a = true → q a = true) :
    ∀ l : List α, List.Sublist (l.filter p) (l.filter q) := by
  intro l
  induction l with
  | nil => simp
  | cons a rest ih =>
    by_cases hp : p a = true
    · simp only [List.filter_cons, hp, h a hp, if_true]
      exact List.Sublist.cons₂ a ih
    · simp only [List.filter_cons, hp, if_false]
      by_cases hq : q a = true
      · simp only [hq, if_true]
        exact List.Sublist.cons a ih
      · simp only [hq, if_false]
        exact ih

theorem freeCount_mono {U visited visited2 : List String} (h : visited ⊆ visited2) :
    freeCount U visited2 ≤ freeCount U visited :=
  List.Sublist.length_le (filter_sublist_filter (fun a ha => by
    simp only [decide_eq_true_eq] at ha ⊢
    exact fun hmem => ha (h hmem)) U)

theorem freeCount_le_length (U visited : List String) :
    freeCount U visited ≤ U.length :=
  List.length_filter_le _ _

theorem freeCount_cons_lt {U visited : List String} {tid : String}
    (hU : tid ∈ U) (hv : tid ∉ visited) :
    freeCount U (tid :: visited) < freeCount U visited := by
  have hsub : List.Sublist (U.filter (fun x => decide (x ∉ tid :: visited)))
      (U.filter (fun x => decide (x ∉ visited))) :=
    filter_sublist_filter (fun a ha => by
      simp only [decide_eq_true_eq, List.mem_cons, not_or] at ha ⊢
      exact ha.2) U
  refine lt_of_le_of_ne (List.Sublist.length_le hsub) ?_
  intro heq
  have heql := List.Sublist.eq_of_length hsub heq
  have htid_in : tid ∈ U.filter (fun x => decide (x ∉ visited)) := by
    rw [List.mem_filter]
    exact ⟨hU, by simpa using hv⟩
  rw [← heql, List.mem_filter] at htid_in
  simp at htid_in

theorem no_cycle_of_deps {g : DepGraph} {tid : String}
    (h : ∀ d ∈ depsOf g tid, ¬ HasCycleFrom g d) : ¬ HasCycleFrom g tid := by
  rintro ⟨c, hreach, hcyc⟩
  rcases hreach.cases_head with heq | ⟨b, hb, hbc⟩
  · subst heq
    rcases Relation.TransGen.head'_iff.mp hcyc with ⟨b, hb, hbc⟩
    exact h b hb ⟨tid, hbc, hcyc⟩
  · exact h b hb ⟨c, hbc, hcyc⟩

theorem vd_of_hcf (g : DepGraph) (U : List String) (fuel : Nat)
    (hP : HCF_Spec g U fuel) : VD_Spec g U fuel := by
  intro ds
  induction ds with
  | nil =>
    intro cur visited recStack _ _ _ hvU _ _ hblack
    simp only [visitDeps, visitDepsF]
    exact ⟨fun _ hx => hx, hvU, hblack, by simp⟩
  | cons d ds ih =>
    intro cur visited recStack hfree hds hdsU hvU hrec hreach hblack
    obtain ⟨hedge, hds2⟩ := List.forall_mem_cons.mp hds
    obtain ⟨hdU, hdsU2⟩ := List.cons_subset.mp hdsU
    by_cases hdv : d ∈ visited
    · have hnn : ¬ d ∉ visited := fun hh => hh hdv
      by_cases hdr : d ∈ recStack
      · have hvd : visitDeps g fuel (d :: ds) visited recStack = none := by
          simp only [visitDeps, visitDepsF]
          rw [if_neg hnn, if_pos hdr]
        rw [hvd]
        have hdc : Relation.ReflTransGen (depEdge g) d cur := hreach d hdr
        exact ⟨d, Relation.ReflTransGen.single hedge, Relation.TransGen.tail' hdc hedge⟩
      · have hvd : visitDeps g fuel (d :: ds) visited recStack
            = visitDeps g fuel ds visited recStack := by
          simp only [visitDeps, visitDepsF]
          rw [if_neg hnn, if_neg hdr]
        rw [hvd]
        have hrest := ih cur visited recStack hfree hds2 hdsU2 hvU hrec hreach hblack
        rcases hres : visitDeps g fuel ds visited recStack with _ | visited2
        · simp only [hres] at hrest
          exact hrest
        · simp only [hres] at hrest
          obtain ⟨h1, h2, h3, h4⟩ := hrest
          refine ⟨h1, h2, h3, ?_⟩
          intro x hx
          rcases List.mem_cons.mp hx with h | h
          · exact h ▸ hblack d hdv hdr
          · exact h4 x h
    · have hreach2 : ∀ c ∈ recStack, Relation.ReflTransGen (depEdge g) c d :=
        fun c hc => Relation.ReflTransGen.tail (hreach c hc) hedge
      have hchild := hP d visited recStack hfree hdU hdv hvU hrec hreach2 hblack
      rcases hres : hasCycleFuel g fuel d visited recStack with _ | visited2
      · have hvd : visitDeps g fuel (d :: ds) visited recStack = none := by
          simp only [visitDeps, visitDepsF]
          rw [if_pos hdv, hres]
        rw [hvd]
        simp only [hres] at hchild
        obtain ⟨cnode, hreach3, hcyc⟩ := hchild
        exact ⟨cnode, Relation.ReflTransGen.head hedge hreach3, hcyc⟩
      · have hvd : visitDeps g fuel (d :: ds) visited recStack
            = visitDeps g fuel ds visited2 recStack := by
          simp only [visitDeps, visitDepsF]
          rw [if_pos hdv, hres]
        rw [hvd]
        simp only [hres] at hchild
        obtain ⟨hmono, hdmem, hsubU, hblack2⟩ := hchild
        have hfree2 : freeCount U visited2 < fuel :=
          lt_of_le_of_lt (freeCount_mono hmono) hfree
        have hrest := ih cur visited2 recStack hfree2 hds2 hdsU2 hsubU
          (fun c hc => hmono (hrec hc)) hreach hblack2
        rcases hres2 : visitDeps g fuel ds visited2 recStack with _ | visited3
        · simp only [hres2] at hrest
          exact hrest
        · simp only [hres2] at hrest
          obtain ⟨k1, k2, k3, k4⟩ := hrest
          refine ⟨fun x hx => k1 (hmono hx), k2, k3, ?_⟩
          intro x hx
          rcases List.mem_cons.mp hx with h | h
          · subst h
            exact k3 x (k1 hdmem) (fun hc => hdv (hrec hc))
          · exact k4 x h

theorem hcf_all (g : DepGraph) (U : List String)
    (hU : ∀ a, depsOf g a ⊆ U) : ∀ fuel, HCF_Spec g U fuel := by
  intro fuel
  induction fuel with
  | zero =>
    intro tid visited recStack hfree
    exact absurd hfree (Nat.not_lt_zero _)
  | succ fuel ih =>
    have hVD := vd_of_hcf g U fuel ih
    intro tid visited recStack hfree htidU htidv hvU hrec hreach hblack
    rw [show hasCycleFuel g (fuel + 1) tid visited recStack
      = visitDeps g fuel (depsOf g tid) (tid :: visited) (tid :: recStack) from rfl]
    have hfree2 : freeCount U (tid :: visited) < fuel := by
      have h1 := freeCount_cons_lt htidU htidv
      omega
    have hsubU : tid :: visited ⊆ U := by
      intro x hx
      rcases List.mem_cons.mp hx with h | h
      · exact h ▸ htidU
      · exact hvU h
    have hrec2 : tid :: recStack ⊆ tid :: visited := by
      intro x hx
      rcases List.mem_cons.mp hx with h | h
      · exact h ▸ List.mem_cons_self _ _
      · exact List.mem_cons_of_mem _ (hrec h)
    have hreach2 : ∀ c ∈ tid :: recStack, Relation.ReflTransGen (depEdge g) c tid := by
      intro c hc
      rcases List.mem_cons.mp hc with h | h
      · exact h ▸ Relation.ReflTransGen.refl
      · exact hreach c h
    have hblack2 : ∀ v ∈ tid :: visited, v ∉ tid :: recStack → ¬ HasCycleFrom g v := by
      intro v hv hvr
      rcases List.mem_cons.mp hv with h | h
      · exact absurd (h ▸ List.mem_cons_self tid recStack) hvr
      · exact hblack v h (fun hin => hvr (List.mem_cons_of_mem _ hin))
    have hres0 := hVD (depsOf g tid) tid (tid :: visited) (tid :: recStack) hfree2
      (fun _ hd => hd) (hU tid) hsubU hrec2 hreach2 hblack2
    rcases hres : visitDeps g fuel (depsOf g tid) (tid :: visited) (tid :: recStack)
      with _ | visited2
    · simp only [hres] at hres0 ⊢
      exact hres0
    · simp only [hres] at hres0 ⊢
      obtain ⟨h1, h2, h3, h4⟩ := hres0
      refine ⟨fun x hx => h1 (List.mem_cons_of_mem _ hx),
        h1 (List.mem_cons_self _ _), h2, ?_⟩
      intro v hv hvr
      by_cases hvt : v = tid
      · subst hvt
        exact no_cycle_of_deps h4
      · refine h3 v hv ?_
        intro hc
        rcases List.mem_cons.mp hc with h | h
        · exact hvt h
        · exact hvr h

theorem validateLoop_spec (g : DepGraph) (U : List String)
    (hU : ∀ a, depsOf g a ⊆ U) (fuel : Nat) (hfuel : U.length < fuel) :
    ∀ ids visited, ids ⊆ U → visited ⊆ U →
    (∀ v ∈ visited, ¬ HasCycleFrom g v) →
    (match validateLoop g fuel ids visited with
     | .ok visited2 =>
        visited ⊆ visited2 ∧ (∀ i ∈ ids, i ∈ visited2) ∧ visited2 ⊆ U ∧
        (∀ v ∈ visited2, ¬ HasCycleFrom g v)
     | .error e =>
        (∃ tid ∈ ids, HasCycleFrom g tid) ∧
        e = "Circular dependency detected in tasks") := by
  intro ids
  induction ids with
  | nil =>
    intro visited _ hvU hclean
    simp only [validateLoop]
    exact ⟨fun _ hx => hx, by simp, hvU, hclean⟩
  | cons tid rest ih =>
    intro visited hidsU hvU hclean
    obtain ⟨htidU, hrestU⟩ := List.cons_subset.mp hidsU
    by_cases hv : tid ∈ visited
    · have hvl : validateLoop g fuel (tid :: rest) visited
          = validateLoop g fuel rest visited := by
        simp only [validateLoop]
        rw [if_pos hv]
      rw [hvl]
      have hrest := ih visited hrestU hvU hclean
      rcases hres : validateLoop g fuel rest visited with e | visited2
      · simp only [hres] at hrest
        obtain ⟨⟨t0, ht0, hcyc⟩, hmsg⟩ := hrest
        exact ⟨⟨t0, List.mem_cons_of_mem _ ht0, hcyc⟩, hmsg⟩
      · simp only [hres] at hrest
        obtain ⟨h0, h1, h2, h3⟩ := hrest
        refine ⟨h0, ?_, h2, h3⟩
        intro i hi
        rcases List.mem_cons.mp hi with h | h
        · exact h ▸ h0 hv
        · exact h1 i h
    · have hfree : freeCount U visited < fuel :=
        lt_of_le_of_lt (freeCount_le_length U visited) hfuel
      have hP := hcf_all g U hU fuel tid visited [] hfree htidU hv hvU
        (by intro x hx; cases hx) (by intro c hc; cases hc)
        (fun v hv2 _ => hclean v hv2)
      rcases hres : hasCycleFuel g fuel tid visited [] with _ | visited2
      · have hvl : validateLoop g fuel (tid :: rest) visited
            = .error "Circular dependency detected in tasks" := by
          simp only [validateLoop]
          rw [if_neg hv, hres]
        rw [hvl]
        simp only [hres] at hP
        exact ⟨⟨tid, List.mem_cons_self _ _, hP⟩, rfl⟩
      · have hvl : validateLoop g fuel (tid :: rest) visited
            = validateLoop g fuel rest visited2 := by
          simp only [validateLoop]
          rw [if_neg hv, hres]
        rw [hvl]
        simp only [hres] at hP
        obtain ⟨h1, h2, h3, h4⟩ := hP
        have hclean2 : ∀ v ∈ visited2, ¬ HasCycleFrom g v :=
          fun v hv2 => h4 v hv2 (by intro hc; cases hc)
        have hrest := ih visited2 hrestU h3 hclean2
        rcases hres2 : validateLoop g fuel rest visited2 with e | visited3
        · simp only [hres2] at hrest
          obtain ⟨⟨t0, ht0, hcyc⟩, hmsg⟩ := hrest
          exact ⟨⟨t0, List.mem_cons_of_mem _ ht0, hcyc⟩, hmsg⟩
        · simp only [hres2] at hrest
          obtain ⟨k0, k1, k2, k3⟩ := hrest
          refine ⟨fun x hx => k0 (h1 hx), ?_, k2, k3⟩
          intro i hi
          rcases List.mem_cons.mp hi with h | h
          · exact h ▸ k0 h2
          · exact k1 i h

theorem mem_depsOf {g : DepGraph} {b c : String} (h : c ∈ depsOf g b) :
    ∃ p ∈ g, c ∈ p.2 := by
  unfold depsOf at h
  rcases hf : g.find? (fun p => p.1 = b) with _ | p
  · rw [hf] at h
    cases h
  · rw [hf] at h
    exact ⟨p, List.mem_of_find?_eq_some hf, h⟩

theorem depsOf_subset_allIds (g : DepGraph) (a : String) :
    depsOf g a ⊆ allIds g := by
  intro x hx
  obtain ⟨p, hp, hxp⟩ := mem_depsOf hx
  unfold allIds
  refine List.mem_append_right _ ?_
  rw [List.mem_flatten]
  exact ⟨p.2, List.mem_map_of_mem Prod.snd hp, hxp⟩

theorem edge_mem_fst {g : DepGraph}
    (hclosed : ∀ p ∈ g, p.2 ⊆ g.map Prod.fst)
    {b c : String} (hbc : depEdge g b c) : c ∈ g.map Prod.fst := by
  obtain ⟨p, hp, hcp⟩ := mem_depsOf hbc
  exact hclosed p hp hcp

theorem reach_mem_fst {g : DepGraph}
    (hclosed : ∀ p ∈ g, p.2 ⊆ g.map Prod.fst)
    {a c : String} (ha : a ∈ g.map Prod.fst)
    (h : Relation.ReflTransGen (depEdge g) a c) : c ∈ g.map Prod.fst := by
  induction h with
  | refl => exact ha
  | tail _ hbc _ => exact edge_mem_fst hclosed hbc

theorem depGraph_fst (tasks : List Task) :
    (depGraph tasks).map Prod.fst = tasks.map Task.task_id := by
  simp [depGraph, List.map_map]

/-- C1.  For a crew with non-empty agents and tasks, non-empty task
descriptions, every task's agent id among the crew's agent ids, distinct
task ids and dependencies naming crew tasks: construction
(`Crew.__post_init__`) succeeds when the dependency graph is acyclic,
and raises ValueError "Circular dependency detected in tasks" when any
crew task lies on a direct or transitive cycle (self-edges included);
the depth-first detection with a recursion stack terminates on every
finite graph (the embedding's fuel is proved sufficient). -/
theorem crew_construction_cycle (c : Crew)
    (hA : c.agents ≠ []) (hT : c.tasks ≠ [])
    (hdesc : ∀ t ∈ c.tasks, t.description ≠ "")
    (hmem : ∀ t ∈ c.tasks, t.agent.agent_id ∈ c.agents.map Agent.agent_id)
    (hnodup : (c.tasks.map Task.task_id).Nodup)
    (hclosed : ∀ t ∈ c.tasks, ∀ d ∈ t.dependencies, d ∈ c.tasks.map Task.task_id) :
    (¬ GraphHasCycle (depGraph c.tasks) → crew_post_init c = .ok c) ∧
    (GraphHasCycle (depGraph c.tasks) →
      crew_post_init c = .error "Circular dependency detected in tasks") := by
  have hclosed2 : ∀ p ∈ depGraph c.tasks, p.2 ⊆ (depGraph c.tasks).map Prod.fst := by
    intro p hp
    rw [depGraph_fst]
    obtain ⟨t, ht, rfl⟩ := List.mem_map.mp hp
    intro d hd
    exact hclosed t ht d hd
  have hloop := validateLoop_spec (depGraph c.tasks) (allIds (depGraph c.tasks))
    (depsOf_subset_allIds (depGraph c.tasks)) ((allIds (depGraph c.tasks)).length + 1)
    (Nat.lt_succ_self _) ((depGraph c.tasks).map Prod.fst) []
    (fun x hx => List.mem_append_left _ hx)
    (by intro x hx; cases hx) (by intro v hv; cases hv)
  have hAe : ¬ c.agents.isEmpty = true := by
    simp [List.isEmpty_iff, hA]
  have hTe : ¬ c.tasks.isEmpty = true := by
    simp [List.isEmpty_iff, hT]
  have hfind : c.tasks.find?
      (fun t => decide (t.agent.agent_id ∉ c.agents.map Agent.agent_id)) = none := by
    rw [List.find?_eq_none]
    intro t ht
    simp [hmem t ht]
  constructor
  · intro hnc
    rcases hres : validateLoop (depGraph c.tasks) ((allIds (depGraph c.tasks)).length + 1)
        ((depGraph c.tasks).map Prod.fst) [] with e | visited2
    · simp only [hres] at hloop
      exfalso
      obtain ⟨⟨tid, htid, cnode, hreach, hcyc⟩, _⟩ := hloop
      exact hnc ⟨cnode, reach_mem_fst hclosed2 htid hreach, hcyc⟩
    · unfold crew_post_init
      rw [if_neg hAe, if_neg hTe, hfind]
      simp only [validate_task_dependencies]
      rw [hres]
  · intro hcyc
    rcases hres : validateLoop (depGraph c.tasks) ((allIds (depGraph c.tasks)).length + 1)
        ((depGraph c.tasks).map Prod.fst) [] with e | visited2
    · simp only [hres] at hloop
      obtain ⟨_, hmsg⟩ := hloop
      subst hmsg
      unfold crew_post_init
      rw [if_neg hAe, if_neg hTe, hfind]
      simp only [validate_task_dependencies]
      rw [hres]
    · exfalso
      simp only [hres] at hloop
      obtain ⟨_, h1, _, h3⟩ := hloop
      obtain ⟨tid, htid, hc⟩ := hcyc
      exact h3 tid (h1 tid htid) ⟨tid, Relation.ReflTransGen.refl, hc⟩

/-- Witness for C1 at a concrete two-task acyclic crew. -/
theorem crew_construction_cycle_witness :
    (wCrew.agents ≠ [] ∧ wCrew.tasks ≠ [] ∧
     (∀ t ∈ wCrew.tasks, t.description ≠ "") ∧
     (∀ t ∈ wCrew.tasks, t.agent.agent_id ∈ wCrew.agents.map Agent.agent_id) ∧
     (wCrew.tasks.map Task.task_id).Nodup ∧
     (∀ t ∈ wCrew.tasks, ∀ d ∈ t.dependencies, d ∈ wCrew.tasks.map Task.task_id)) ∧
    ((¬ GraphHasCycle (depGraph wCrew.tasks) → crew_post_init wCrew = .ok wCrew) ∧
     (GraphHasCycle (depGraph wCrew.tasks) →
       crew_post_init wCrew = .error "Circular dependency detected in tasks")) :=
  ⟨⟨by decide, by decide, by decide, by decide, by decide, by decide⟩,
    crew_construction_cycle wCrew (by decide) (by decide) (by decide)
      (by decide) (by decide) (by decide)⟩

/-- Witness for C9's amended theorem at a concrete task and sequence. -/
theorem marks_never_return_to_pending_witness :
    ([MarkOp.inProgress, MarkOp.completedOp "done"] ≠ ([] : List MarkOp)) ∧
    (applyMarks [MarkOp.inProgress, MarkOp.completedOp "done"] wTask).status
      ≠ TaskStatus.pending :=
  ⟨by simp, marks_never_return_to_pending wTask
    [MarkOp.inProgress, MarkOp.completedOp "done"] (by simp)⟩

theorem execSeqAux_step (exec : Agent → String → Except String String)
    (process : ProcessType) (fuel : Nat) (tasks : List Task)
    (pad : Option (List (String × String))) (acc : List TaskResult) (completed : Nat)
    {t : Task} {rest : List Task}
    (hready : get_ready_tasks tasks = t :: rest)
    (hncomp : is_complete tasks = false) :
    execSeqAux exec process (fuel + 1) tasks pad acc completed
      = execSeqAux exec process fuel
          (updateTask tasks t.task_id (execute_task exec tasks pad t).1)
          (execute_task exec tasks pad t).2.1
          (acc ++ [(execute_task exec tasks pad t).2.2]) (completed + 1) := by
  simp only [execSeqAux]
  rw [if_neg (by simp [hncomp]), hready]

theorem find?_of_filter_cons {p : α → Bool} {l : List α} {a : α} {rest : List α}
    (h : l.filter p = a :: rest) : l.find? p = some a := by
  induction l with
  | nil => simp at h
  | cons x xs ih =>
    by_cases hx : p x = true
    · rw [List.filter_cons_of_pos hx] at h
      injection h with h1 _
      subst h1
      simp [List.find?, hx]
    · rw [List.filter_cons_of_neg (by simpa using hx)] at h
      simp only [List.find?, hx]
      exact ih h

/-- C4.  In sequential mode an iteration of the engine loop with a
non-empty ready set executes exactly one task — the head of the ready
set, which is the first pending-and-ready task in crew task-list
order — appends its single result, and recurses on the task list in
which only entries with that task's id changed; the run is a
deterministic function of the crew and the executor. -/
theorem sequential_one_task_per_iteration (exec : Agent → String → Except String String)
    (process : ProcessType) (fuel : Nat) (tasks : List Task)
    (pad : Option (List (String × String))) (acc : List TaskResult) (completed : Nat)
    (t : Task) (rest : List Task)
    (hready : get_ready_tasks tasks = t :: rest)
    (hncomp : is_complete tasks = false) :
    (execSeqAux exec process (fuel + 1) tasks pad acc completed
      = execSeqAux exec process fuel
          (updateTask tasks t.task_id (execute_task exec tasks pad t).1)
          (execute_task exec tasks pad t).2.1
          (acc ++ [(execute_task exec tasks pad t).2.2]) (completed + 1)) ∧
    tasks.find? (fun u => decide (u.status = TaskStatus.pending) && Task.is_ready tasks u)
      = some t ∧
    (∀ u ∈ tasks, u.task_id ≠ t.task_id →
      u ∈ updateTask tasks t.task_id (execute_task exec tasks pad t).1) := by
  refine ⟨execSeqAux_step exec process fuel tasks pad acc completed hready hncomp,
    find?_of_filter_cons hready, ?_⟩
  intro u hu hne
  unfold updateTask
  refine List.mem_map.mpr ⟨u, hu, ?_⟩
  rw [if_neg hne]

/-- Witness for C4 at a one-task crew. -/
theorem sequential_one_task_per_iteration_witness :
    (get_ready_tasks [wTask] = wTask :: [] ∧ is_complete [wTask] = false) ∧
    ((execSeqAux wExec ProcessType.sequential (0 + 1) [wTask] none [] 0
      = execSeqAux wExec ProcessType.sequential 0
          (updateTask [wTask] wTask.task_id (execute_task wExec [wTask] none wTask).1)
          (execute_task wExec [wTask] none wTask).2.1
          ([] ++ [(execute_task wExec [wTask] none wTask).2.2]) (0 + 1)) ∧
     [wTask].find? (fun u => decide (u.status = TaskStatus.pending) && Task.is_ready [wTask] u)
       = some wTask ∧
     (∀ u ∈ [wTask], u.task_id ≠ wTask.task_id →
       u ∈ updateTask [wTask] wTask.task_id (execute_task wExec [wTask] none wTask).1)) :=
  ⟨⟨by decide, by decide⟩,
    sequential_one_task_per_iteration wExec ProcessType.sequential 0 [wTask] none [] 0
      wTask [] (by decide) (by decide)⟩

/-- C3.  When every still-pending task has a dependency resolving to a
failed crew task and at least one task is still pending, the sequential
loop finds the ready set empty, breaks instead of raising the
"No ready tasks but workflow not complete" RuntimeError, leaves the task
states untouched (the blocked tasks stay pending), and returns a
CrewOutput with success = false. -/
theorem blocked_by_failed_dependency (exec : Agent → String → Except String String)
    (process : ProcessType) (tasks : List Task)
    (pad : Option (List (String × String)))
    (hblocked : ∀ t ∈ tasks, t.status = TaskStatus.pending →
      ∃ d ∈ t.dependencies, depStatus tasks d = some TaskStatus.failed)
    (hpend : ∃ t ∈ tasks, t.status = TaskStatus.pending) :
    ∃ o, execute_sequential exec process tasks pad = SeqOutcome.out tasks pad o ∧
      o.success = false := by
  obtain ⟨t0, ht0, hst0⟩ := hpend
  have hncomp : ¬ is_complete tasks = true := by
    simp only [is_complete, List.all_eq_true]
    intro hall
    have h := hall t0 ht0
    rw [hst0] at h
    simp at h
  have hready : get_ready_tasks tasks = [] := by
    unfold get_ready_tasks
    rw [List.filter_eq_nil_iff]
    intro t ht
    by_cases hst : t.status = TaskStatus.pending
    · obtain ⟨d, hd, hdep⟩ := hblocked t ht hst
      simp only [Bool.and_eq_true, decide_eq_true_eq, not_and]
      intro _
      intro hisr
      rw [Task.is_ready, List.all_eq_true] at hisr
      have h := hisr d hd
      simp [hdep] at h
    · simp [hst]
  have hfail : has_failed_tasks tasks = true := by
    obtain ⟨d, hd, hdep⟩ := hblocked t0 ht0 hst0
    rcases hmap : taskById tasks d with _ | dep
    · rw [depStatus, hmap] at hdep
      simp at hdep
    · have hdepst : dep.status = TaskStatus.failed := by
        rw [depStatus, hmap] at hdep
        simpa using hdep
      have hmem : dep ∈ tasks := by
        unfold taskById at hmap
        exact List.mem_of_find?_eq_some hmap
      simp only [has_failed_tasks, List.any_eq_true]
      exact ⟨dep, hmem, by simp [hdepst]⟩
  have h1 : execute_sequential exec process tasks pad
      = if has_failed_tasks tasks then SeqOutcome.out tasks pad (mkOutput process tasks [] 0)
        else SeqOutcome.invariantError tasks pad := by
    unfold execute_sequential
    simp only [execSeqAux]
    rw [if_neg hncomp, hready]
  refine ⟨mkOutput process tasks [] 0, ?_, ?_⟩
  · rw [h1, if_pos hfail]
  · simp [mkOutput, hfail]

/-- Witness for C3: a pending task blocked on a failed dependency. -/
theorem blocked_by_failed_dependency_witness :
    ((∀ t ∈ [wTaskF, wTaskP], t.status = TaskStatus.pending →
        ∃ d ∈ t.dependencies, depStatus [wTaskF, wTaskP] d = some TaskStatus.failed) ∧
     (∃ t ∈ [wTaskF, wTaskP], t.status = TaskStatus.pending)) ∧
    (∃ o, execute_sequential wExec ProcessType.sequential [wTaskF, wTaskP] none
        = SeqOutcome.out [wTaskF, wTaskP] none o ∧ o.success = false) :=
  ⟨⟨by decide, by decide⟩,
    blocked_by_failed_dependency wExec ProcessType.sequential [wTaskF, wTaskP] none
      (by decide) (by decide)⟩

/-- C6.  When the turn-execution collaborator raises, `_execute_task`
marks the task failed with the exception text, returns a TaskResult with
success = false carrying that error, leaves the scratchpad unchanged and
does not propagate the exception: an engine-loop iteration whose first
ready task is this one simply recurses, so independent tasks still
execute. -/
theorem executor_failure_captured (exec : Agent → String → Except String String)
    (tasks : List Task) (pad : Option (List (String × String))) (t : Task) (msg : String)
    (hexec : ∀ p, exec t.agent p = Except.error msg) :
    (execute_task exec tasks pad t).1.status = TaskStatus.failed ∧
    (execute_task exec tasks pad t).1.error = some msg ∧
    (execute_task exec tasks pad t).1.task_id = t.task_id ∧
    (execute_task exec tasks pad t).2.1 = pad ∧
    (execute_task exec tasks pad t).2.2.success = false ∧
    (execute_task exec tasks pad t).2.2.error = msg ∧
    (∀ process fuel acc completed rest,
      get_ready_tasks tasks = t :: rest →
      is_complete tasks = false →
      execSeqAux exec process (fuel + 1) tasks pad acc completed
        = execSeqAux exec process fuel
            (updateTask tasks t.task_id (execute_task exec tasks pad t).1) pad
            (acc ++ [(execute_task exec tasks pad t).2.2]) (completed + 1)) := by
  have hrun : execute_task exec tasks pad t
      = ({ t with status := TaskStatus.failed, error := some msg }, pad,
         { task_id := t.task_id, success := false, output := "", error := msg,
           metadata := { agent_id := t.agent.agent_id, agent_role := t.agent.role } }) := by
    simp only [execute_task, hexec, Task.mark_in_progress, Task.mark_failed]
  refine ⟨by rw [hrun], by rw [hrun], by rw [hrun], by rw [hrun], by rw [hrun],
    by rw [hrun], ?_⟩
  intro process fuel acc completed rest hready hncomp
  have hstep := execSeqAux_step exec process fuel tasks pad acc completed hready hncomp
  rw [hrun] at hstep
  rw [hrun]
  exact hstep

/-- Witness for C6 at a concrete failing executor. -/
theorem executor_failure_captured_witness :
    (∀ p, wExecFail wTask.agent p = Except.error "boom") ∧
    ((execute_task wExecFail [wTask] none wTask).1.status = TaskStatus.failed ∧
     (execute_task wExecFail [wTask] none wTask).1.error = some "boom" ∧
     (execute_task wExecFail [wTask] none wTask).1.task_id = wTask.task_id ∧
     (execute_task wExecFail [wTask] none wTask).2.1 = none ∧
     (execute_task wExecFail [wTask] none wTask).2.2.success = false ∧
     (execute_task wExecFail [wTask] none wTask).2.2.error = "boom" ∧
     (∀ process fuel acc completed rest,
       get_ready_tasks [wTask] = wTask :: rest →
       is_complete [wTask] = false →
       execSeqAux wExecFail process (fuel + 1) [wTask] none acc completed
         = execSeqAux wExecFail process fuel
             (updateTask [wTask] wTask.task_id (execute_task wExecFail [wTask] none wTask).1) none
             (acc ++ [(execute_task wExecFail [wTask] none wTask).2.2]) (completed + 1))) :=
  ⟨fun _ => rfl,
    executor_failure_captured wExecFail [wTask] none wTask "boom" (fun _ => rfl)⟩

theorem map_eq_of_forall {l : List α} {f g : α → β} (h : ∀ x ∈ l, f x = g x) :
    l.map f = l.map g := by
  induction l with
  | nil => rfl
  | cons x xs ih =>
    rw [List.map_cons, List.map_cons, h x (List.mem_cons_self _ _),
      ih (fun y hy => h y (List.mem_cons_of_mem _ hy))]

theorem map_update_id {l : List Task} {tid : String} {newT : Task}
    (h : ∀ x ∈ l, ¬ x.task_id = tid) :
    l.map (fun v => if v.task_id = tid then newT else v) = l := by
  induction l with
  | nil => rfl
  | cons x xs ih =>
    rw [List.map_cons, if_neg (h x (List.mem_cons_self _ _)),
      ih (fun y hy => h y (List.mem_cons_of_mem _ hy))]

theorem countP_updateTask (p : Task → Bool) {tasks : List Task} {t1 : Task} (newT : Task)
    (ht1 : t1 ∈ tasks) (hnodup : (tasks.map Task.task_id).Nodup) :
    (updateTask tasks t1.task_id newT).countP p + (if p t1 = true then 1 else 0)
      = tasks.countP p + (if p newT = true then 1 else 0) := by
  obtain ⟨s, u, rfl⟩ := List.append_of_mem ht1
  have hnd := hnodup
  rw [List.map_append, List.map_cons, List.nodup_append] at hnd
  obtain ⟨hs_nd, hcons_nd, hdisj⟩ := hnd
  have hs : ∀ x ∈ s, ¬ x.task_id = t1.task_id := by
    intro x hx heq
    exact hdisj (List.mem_map_of_mem Task.task_id hx)
      (by rw [heq]; exact List.mem_cons_self _ _)
  have hu : ∀ x ∈ u, ¬ x.task_id = t1.task_id := by
    intro x hx heq
    rw [List.nodup_cons] at hcons_nd
    exact hcons_nd.1 (heq ▸ List.mem_map_of_mem Task.task_id hx)
  unfold updateTask
  rw [List.map_append, List.map_cons, if_pos rfl, map_update_id hs, map_update_id hu,
    List.countP_append, List.countP_append, List.countP_cons, List.countP_cons]
  omega

theorem execute_task_ok (exec : Agent → String → Except String String)
    (tasks : List Task) (pad : Option (List (String × String))) (t : Task)
    (hexec : ∀ p, ∃ o, exec t.agent p = Except.ok o) :
    ∃ o, execute_task exec tasks pad t
      = ({ t with status := TaskStatus.completed, result := some o },
         pad.map (fun data => Scratchpad.set ("task_" ++ t.task_id ++ "_result") o data),
         { task_id := t.task_id, success := true, output := o, error := "",
           metadata := { agent_id := t.agent.agent_id, agent_role := t.agent.role,
                         execution_time := some () } }) := by
  obtain ⟨o, ho⟩ := hexec (promptWithMemory tasks pad t)
  refine ⟨o, ?_⟩
  simp only [execute_task, ho, Task.mark_in_progress, Task.mark_completed]

theorem seq_indep_run (exec : Agent → String → Except String String)
    (process : ProcessType)
    (hexec : ∀ a p, ∃ o, exec a p = Except.ok o) :
    ∀ fuel tasks pad acc completed,
    (∀ t ∈ tasks, t.dependencies = ([] : List String) ∧
      (t.status = TaskStatus.pending ∨ t.status = TaskStatus.completed)) →
    (tasks.map Task.task_id).Nodup →
    pendingCount tasks < fuel →
    ∃ tasks2 pad2 o,
      execSeqAux exec process fuel tasks pad acc completed = SeqOutcome.out tasks2 pad2 o ∧
      (∀ t ∈ tasks2, t.status = TaskStatus.completed) ∧
      o.success = true ∧
      o.tasks_output.length = acc.length + pendingCount tasks ∧
      (∀ r ∈ o.tasks_output, r ∈ acc ∨
        ∃ t ∈ tasks, r.task_id = t.task_id ∧ r.metadata.agent_role = t.agent.role) := by
  intro fuel
  induction fuel with
  | zero =>
    intro tasks pad acc completed _ _ hlt
    exact absurd hlt (Nat.not_lt_zero _)
  | succ fuel ih =>
    intro tasks pad acc completed hinv hnodup hlt
    by_cases hpc : pendingCount tasks = 0
    · have hall : ∀ t ∈ tasks, t.status = TaskStatus.completed := by
        intro t ht
        rcases (hinv t ht).2 with h | h
        · exfalso
          have hpos : 0 < pendingCount tasks :=
            List.countP_pos.mpr ⟨t, ht, by simp [h]⟩
          omega
        · exact h
      have hcomp : is_complete tasks = true := by
        simp only [is_complete, List.all_eq_true]
        intro t ht
        simp [hall t ht]
      have hnofail : has_failed_tasks tasks = false := by
        rcases hfa : has_failed_tasks tasks with _ | _
        · rfl
        · exfalso
          rw [has_failed_tasks, List.any_eq_true] at hfa
          obtain ⟨t, ht, hf⟩ := hfa
          simp [hall t ht] at hf
      refine ⟨tasks, pad, mkOutput process tasks acc completed, ?_, hall, ?_, ?_, ?_⟩
      · simp only [execSeqAux]
        rw [if_pos hcomp]
      · simp [mkOutput, hnofail]
      · simp [mkOutput, hpc]
      · intro r hr
        exact Or.inl hr
    · obtain ⟨t0, ht0, hp0⟩ := List.countP_pos.mp (Nat.pos_of_ne_zero hpc)
      have hst0 : t0.status = TaskStatus.pending := by simpa using hp0
      have hncomp : is_complete tasks = false := by
        rcases hc : is_complete tasks with _ | _
        · rfl
        · exfalso
          rw [is_complete, List.all_eq_true] at hc
          have h := hc t0 ht0
          rw [hst0] at h
          simp at h
      have hmem0 : t0 ∈ get_ready_tasks tasks := by
        unfold get_ready_tasks
        rw [List.mem_filter]
        exact ⟨ht0, by simp [hst0, Task.is_ready, (hinv t0 ht0).1]⟩
      rcases hready : get_ready_tasks tasks with _ | ⟨t1, rest⟩
      · rw [hready] at hmem0
        cases hmem0
      · have ht1g : t1 ∈ get_ready_tasks tasks := by
          rw [hready]
          exact List.mem_cons_self _ _
        have hmem1 := List.mem_filter.mp ht1g
        have ht1 : t1 ∈ tasks := hmem1.1
        have hst1 : t1.status = TaskStatus.pending := by
          have h := hmem1.2
          simp only [Bool.and_eq_true, decide_eq_true_eq] at h
          exact h.1
        obtain ⟨o1, hexeq⟩ := execute_task_ok exec tasks pad t1 (fun p => hexec t1.agent p)
        have hstep := execSeqAux_step exec process fuel tasks pad acc completed hready hncomp
        rw [hexeq] at hstep
        have hinv2 : ∀ v ∈ updateTask tasks t1.task_id
            { t1 with status := TaskStatus.completed, result := some o1 },
            v.dependencies = ([] : List String) ∧
            (v.status = TaskStatus.pending ∨ v.status = TaskStatus.completed) := by
          intro v hv
          unfold updateTask at hv
          obtain ⟨w, hw, hfw⟩ := List.mem_map.mp hv
          by_cases hid : w.task_id = t1.task_id
          · rw [if_pos hid] at hfw
            subst hfw
            exact ⟨(hinv t1 ht1).1, Or.inr rfl⟩
          · rw [if_neg hid] at hfw
            subst hfw
            exact hinv w hw
        have hids : (updateTask tasks t1.task_id
            { t1 with status := TaskStatus.completed, result := some o1 }).map Task.task_id
            = tasks.map Task.task_id := by
          unfold updateTask
          rw [List.map_map]
          apply map_eq_of_forall
          intro x hx
          by_cases hid : x.task_id = t1.task_id
          · simp [Function.comp, hid]
          · simp [Function.comp, hid]
        have hnodup2 : ((updateTask tasks t1.task_id
            { t1 with status := TaskStatus.completed, result := some o1 }).map
              Task.task_id).Nodup := by
          rw [hids]
          exact hnodup
        have hpend_eq : pendingCount (updateTask tasks t1.task_id
            { t1 with status := TaskStatus.completed, result := some o1 }) + 1
            = pendingCount tasks := by
          have h := countP_updateTask (fun t => decide (t.status = TaskStatus.pending))
            { t1 with status := TaskStatus.completed, result := some o1 } ht1 hnodup
          rw [if_pos (by simp [hst1]), if_neg (by simp)] at h
          simpa [pendingCount] using h
        have hih := ih (updateTask tasks t1.task_id
            { t1 with status := TaskStatus.completed, result := some o1 })
          (pad.map (fun data => Scratchpad.set ("task_" ++ t1.task_id ++ "_result") o1 data))
          (acc ++ [{ task_id := t1.task_id, success := true, output := o1, error := "",
                     metadata := { agent_id := t1.agent.agent_id,
                                   agent_role := t1.agent.role,
                                   execution_time := some () } }])
          (completed + 1) hinv2 hnodup2 (by omega)
        obtain ⟨tasks2, pad2, o, hrun, hcompl, hsucc, hlen, hsrc⟩ := hih
        refine ⟨tasks2, pad2, o, ?_, hcompl, hsucc, ?_, ?_⟩
        · rw [hstep]
          exact hrun
        · rw [hlen, List.length_append]
          simp only [List.length_cons, List.length_nil]
          omega
        · intro r hr
          rcases hsrc r hr with hacc | ⟨t, ht, hid, hrole⟩
          · rcases List.mem_append.mp hacc with h | h
            · exact Or.inl h
            · have hreq := List.mem_singleton.mp h
              subst hreq
              exact Or.inr ⟨t1, ht1, rfl, rfl⟩
          · unfold updateTask at ht
            obtain ⟨v, hv, hfv⟩ := List.mem_map.mp ht
            by_cases hid2 : v.task_id = t1.task_id
            · rw [if_pos hid2] at hfv
              subst hfv
              exact Or.inr ⟨t1, ht1, hid, hrole⟩
            · rw [if_neg hid2] at hfv
              subst hfv
              exact Or.inr ⟨v, hv, hid, hrole⟩

/-- C5.  Sequential execution of N tasks with pairwise empty dependency
lists and a turn executor that succeeds on every call marks all N tasks
completed, returns a CrewOutput with success = true, and its
tasks_output list has exactly N entries, each carrying the originating
agent's role in its metadata. -/
theorem sequential_independent_all_complete (exec : Agent → String → Except String String)
    (process : ProcessType) (tasks : List Task) (pad : Option (List (String × String)))
    (hdeps : ∀ t ∈ tasks, t.dependencies = ([] : List String))
    (hstatus : ∀ t ∈ tasks, t.status = TaskStatus.pending)
    (hnodup : (tasks.map Task.task_id).Nodup)
    (hexec : ∀ a p, ∃ o, exec a p = Except.ok o) :
    ∃ tasks2 pad2 o,
      execute_sequential exec process tasks pad = SeqOutcome.out tasks2 pad2 o ∧
      (∀ t ∈ tasks2, t.status = TaskStatus.completed) ∧
      o.success = true ∧
      o.tasks_output.length = tasks.length ∧
      (∀ r ∈ o.tasks_output, ∃ t ∈ tasks, r.task_id = t.task_id ∧
        r.metadata.agent_role = t.agent.role) := by
  have hcnt : pendingCount tasks = tasks.length := by
    rw [pendingCount]
    apply List.countP_eq_length.mpr
    intro t ht
    simp [hstatus t ht]
  have h := seq_indep_run exec process hexec (tasks.length + 1) tasks pad [] 0
    (fun t ht => ⟨hdeps t ht, Or.inl (hstatus t ht)⟩) hnodup (by rw [hcnt]; omega)
  obtain ⟨tasks2, pad2, o, hrun, hcompl, hsucc, hlen, hsrc⟩ := h
  refine ⟨tasks2, pad2, o, hrun, hcompl, hsucc, ?_, ?_⟩
  · rw [hlen, hcnt]
    simp
  · intro r hr
    rcases hsrc r hr with h2 | h2
    · cases h2
    · exact h2

/-- Witness for C5 at a one-task crew with an always-succeeding executor. -/
theorem sequential_independent_all_complete_witness :
    ((∀ t ∈ [wTask], t.dependencies = ([] : List String)) ∧
     (∀ t ∈ [wTask], t.status = TaskStatus.pending) ∧
     ([wTask].map Task.task_id).Nodup ∧
     (∀ a p, ∃ o, wExec a p = Except.ok o)) ∧
    (∃ tasks2 pad2 o,
      execute_sequential wExec ProcessType.sequential [wTask] none
        = SeqOutcome.out tasks2 pad2 o ∧
      (∀ t ∈ tasks2, t.status = TaskStatus.completed) ∧
      o.success = true ∧
      o.tasks_output.length = [wTask].length ∧
      (∀ r ∈ o.tasks_output, ∃ t ∈ [wTask], r.task_id = t.task_id ∧
        r.metadata.agent_role = t.agent.role)) :=
  ⟨⟨by decide, by decide, by decide, fun _ _ => ⟨"done", rfl⟩⟩,
    sequential_independent_all_complete wExec ProcessType.sequential [wTask] none
      (by decide) (by decide) (by decide) (fun _ _ => ⟨"done", rfl⟩)⟩

theorem statusOfString_statusToString (s : TaskStatus) :
    statusOfString (statusToString s) = .ok s := by
  cases s <;> rfl

theorem processOfString_processToString (p : ProcessType) :
    processOfString (processToString p) = .ok p := by
  cases p <;> rfl

theorem except_bind_ok (a : α) (f : α → Except ε β) :
    (Except.ok a >>= f : Except ε β) = f a := rfl

theorem Task.from_dict_to_dict (t : Task) (a : Agent) (hdesc : t.description ≠ "") :
    Task.from_dict (Task.to_dict t) a [] = .ok { t with agent := a, dependencies := [] } := by
  have h1 := statusOfString_statusToString t.status
  simp only [Task.from_dict, Task.to_dict, h1, task_post_init, except_bind_ok]
  rw [if_neg hdesc]
  rfl

theorem loadAgents_spec :
    ∀ (dicts : List AgentDict) (acc : List Agent) (amap : List (String × Agent)),
    (∀ d ∈ dicts, d.role ≠ "" ∧ d.goal ≠ "") →
    (∀ k a2, dlookup k amap = some a2 → a2.agent_id = k) →
    ∃ agents2 amap2,
      loadAgents dicts acc amap = .ok (agents2, amap2) ∧
      agents2.map Agent.agent_id
        = acc.map Agent.agent_id ++ dicts.map AgentDict.agent_id ∧
      (∀ k a2, dlookup k amap2 = some a2 → a2.agent_id = k) ∧
      (∀ k, (∃ a, dlookup k amap = some a) ∨ k ∈ dicts.map AgentDict.agent_id →
        ∃ a2, dlookup k amap2 = some a2) := by
  intro dicts
  induction dicts with
  | nil =>
    intro acc amap _ hkey
    refine ⟨acc, amap, rfl, by simp, hkey, ?_⟩
    intro k hk
    rcases hk with h | h
    · exact h
    · cases h
  | cons d ds ih =>
    intro acc amap hrg hkey
    obtain ⟨hr, hg⟩ := hrg d (List.mem_cons_self _ _)
    have hstep : Agent.from_dict d = .ok (defAgentD d) :=
      @agent_post_init_ok (AgentDict.toAgent d) hr hg
    have hkey2 : ∀ k a2, dlookup k (dinsert d.agent_id (defAgentD d) amap) = some a2 →
        a2.agent_id = k := by
      intro k a2 hk
      by_cases hkk : d.agent_id = k
      · subst hkk
        rw [dlookup_dinsert_self] at hk
        cases hk
        rfl
      · rw [dlookup_dinsert_ne hkk] at hk
        exact hkey k a2 hk
    have hih := ih (acc ++ [defAgentD d]) (dinsert d.agent_id (defAgentD d) amap)
      (fun d2 hd2 => hrg d2 (List.mem_cons_of_mem _ hd2)) hkey2
    obtain ⟨agents2, amap2, hrun, hids2, hkeyf, hlook⟩ := hih
    have hla : loadAgents (d :: ds) acc amap
        = loadAgents ds (acc ++ [defAgentD d]) (dinsert d.agent_id (defAgentD d) amap) := by
      simp only [loadAgents, hstep, except_bind_ok]
      rfl
    refine ⟨agents2, amap2, by rw [hla]; exact hrun, ?_, hkeyf, ?_⟩
    · rw [hids2, List.map_append]
      simp [defAgentD, AgentDict.toAgent]
    · intro k hk
      apply hlook
      rcases hk with ⟨a, ha⟩ | hmemk
      · by_cases hkk : d.agent_id = k
        · subst hkk
          exact Or.inl ⟨_, dlookup_dinsert_self _ _ _⟩
        · exact Or.inl ⟨a, by rw [dlookup_dinsert_ne hkk]; exact ha⟩
      · rcases List.mem_cons.mp hmemk with h | h
        · subst h
          exact Or.inl ⟨_, dlookup_dinsert_self _ _ _⟩
        · exact Or.inr h

theorem loadTasksPass1_spec (amap : List (String × Agent))
    (hkeyA : ∀ k a2, dlookup k amap = some a2 → a2.agent_id = k) :
    ∀ (tasksIn : List Task) (acc : List Task) (tmap : List (String × Task)),
    (∀ t ∈ tasksIn, t.description ≠ "") →
    (∀ t ∈ tasksIn, ∃ a, dlookup t.agent.agent_id amap = some a) →
    (∀ k t2, dlookup k tmap = some t2 → t2.task_id = k) →
    ∃ tasks1 tmap2,
      loadTasksPass1 amap (tasksIn.map Task.to_dict) acc tmap = .ok (acc ++ tasks1, tmap2) ∧
      List.Forall₂ (fun t t1 => t1.task_id = t.task_id ∧ t1.status = t.status ∧
        t1.agent.agent_id = t.agent.agent_id ∧ t1.dependencies = ([] : List String))
        tasksIn tasks1 ∧
      (∀ k t2, dlookup k tmap2 = some t2 → t2.task_id = k) ∧
      (∀ k, (∃ t2, dlookup k tmap = some t2) ∨ k ∈ tasksIn.map Task.task_id →
        ∃ t2, dlookup k tmap2 = some t2) := by
  intro tasksIn
  induction tasksIn with
  | nil =>
    intro acc tmap _ _ hkey
    refine ⟨[], tmap, by simp [loadTasksPass1], List.Forall₂.nil, hkey, ?_⟩
    intro k hk
    rcases hk with h | h
    · exact h
    · cases h
  | cons t ts ih =>
    intro acc tmap hdesc hexA hkey
    obtain ⟨a, ha⟩ := hexA t (List.mem_cons_self _ _)
    have haid : a.agent_id = t.agent.agent_id := hkeyA _ a ha
    have hfd := Task.from_dict_to_dict t a (hdesc t (List.mem_cons_self _ _))
    have hlag : dlookup (Task.to_dict t).agent_id amap = some a := ha
    have hstep : loadTasksPass1 amap ((t :: ts).map Task.to_dict) acc tmap
        = loadTasksPass1 amap (ts.map Task.to_dict)
            (acc ++ [{ t with agent := a, dependencies := ([] : List String) }])
            (dinsert t.task_id
              { t with agent := a, dependencies := ([] : List String) } tmap) := by
      rw [List.map_cons]
      simp only [loadTasksPass1, hlag, except_bind_ok, hfd]
    have hkey2 : ∀ k t2, dlookup k (dinsert t.task_id
        ({ t with agent := a, dependencies := ([] : List String) } : Task) tmap)
        = some t2 → t2.task_id = k := by
      intro k t2 hk
      by_cases hkk : t.task_id = k
      · subst hkk
        rw [dlookup_dinsert_self] at hk
        cases hk
        rfl
      · rw [dlookup_dinsert_ne hkk] at hk
        exact hkey k t2 hk
    have hih := ih (acc ++ [{ t with agent := a, dependencies := ([] : List String) }])
      (dinsert t.task_id { t with agent := a, dependencies := ([] : List String) } tmap)
      (fun u hu => hdesc u (List.mem_cons_of_mem _ hu))
      (fun u hu => hexA u (List.mem_cons_of_mem _ hu)) hkey2
    obtain ⟨tasks1, tmap2, hrun, hf2, hkeyf, hlook⟩ := hih
    refine ⟨{ t with agent := a, dependencies := ([] : List String) } :: tasks1, tmap2,
      ?_, ?_, hkeyf, ?_⟩
    · rw [hstep, hrun, List.append_assoc]
      rfl
    · exact List.Forall₂.cons ⟨rfl, rfl, haid, rfl⟩ hf2
    · intro k hk
      apply hlook
      rcases hk with ⟨t2, ht2⟩ | hmemk
      · by_cases hkk : t.task_id = k
        · subst hkk
          exact Or.inl ⟨_, dlookup_dinsert_self _ _ _⟩
        · exact Or.inl ⟨t2, by rw [dlookup_dinsert_ne hkk]; exact ht2⟩
      · rcases List.mem_cons.mp hmemk with h | h
        · subst h
          exact Or.inl ⟨_, dlookup_dinsert_self _ _ _⟩
        · exact Or.inr h

theorem lookupDeps_spec (tmap : List (String × Task))
    (hkey : ∀ k t2, dlookup k tmap = some t2 → t2.task_id = k) :
    ∀ l : List String, (∀ x ∈ l, ∃ y, dlookup x tmap = some y) →
    ∃ ys, lookupDeps tmap l = .ok ys ∧ ys.map Task.task_id = l := by
  intro l
  induction l with
  | nil => exact fun _ => ⟨[], rfl, rfl⟩
  | cons x xs ih =>
    intro hex
    obtain ⟨y, hy⟩ := hex x (List.mem_cons_self _ _)
    obtain ⟨ys, hys, hids⟩ := ih (fun z hz => hex z (List.mem_cons_of_mem _ hz))
    refine ⟨y :: ys, ?_, ?_⟩
    · simp only [lookupDeps, hy, except_bind_ok, hys]
    · simp [hids, hkey x y hy]

theorem forall₂_map_eq {R : α → β → Prop} {l1 : List α} {l2 : List β}
    (h : List.Forall₂ R l1 l2) {f : α → γ} {g : β → γ}
    (hfg : ∀ a b, R a b → g b = f a) : l2.map g = l1.map f := by
  induction h with
  | nil => rfl
  | cons hR _ ih => simp [List.map_cons, hfg _ _ hR, ih]

theorem wireDeps_spec (tmap : List (String × Task))
    (hkeyT : ∀ k t2, dlookup k tmap = some t2 → t2.task_id = k) :
    ∀ (tasksIn tasks1 : List Task),
    List.Forall₂ (fun t t1 => t1.task_id = t.task_id ∧ t1.status = t.status ∧
      t1.agent.agent_id = t.agent.agent_id ∧ t1.dependencies = ([] : List String))
      tasksIn tasks1 →
    (∀ t ∈ tasksIn, ∀ d ∈ t.dependencies, ∃ t2, dlookup d tmap = some t2) →
    ∃ tasks2, wireDeps tmap ((tasksIn.map Task.to_dict).zip tasks1) = .ok tasks2 ∧
      List.Forall₂ (fun t t2 => t2.task_id = t.task_id ∧ t2.status = t.status ∧
        t2.agent.agent_id = t.agent.agent_id ∧ t2.dependencies = t.dependencies)
        tasksIn tasks2 := by
  intro tasksIn tasks1 hf2
  induction hf2 with
  | nil => exact fun _ => ⟨[], rfl, List.Forall₂.nil⟩
  | @cons t t1 ts ts1 hR htail ih =>
    intro hdeps
    obtain ⟨deps, hdl, hdlids⟩ := lookupDeps_spec tmap hkeyT t.dependencies
      (fun d hd => hdeps t (List.mem_cons_self _ _) d hd)
    obtain ⟨tasks2, hw, hf⟩ := ih (fun u hu d hd => hdeps u (List.mem_cons_of_mem _ hu) d hd)
    have hdl2 : lookupDeps tmap (Task.to_dict t).dependencies = .ok deps := hdl
    refine ⟨{ t1 with dependencies := deps.map Task.task_id } :: tasks2, ?_, ?_⟩
    · rw [List.map_cons, List.zip_cons_cons]
      simp only [wireDeps, hdl2, except_bind_ok, hw]
    · refine List.Forall₂.cons ⟨?_, ?_, ?_, ?_⟩ hf
      · exact hR.1
      · exact hR.2.1
      · exact hR.2.2.1
      · exact hdlids

theorem crew_post_init_ok_congr {c1 c2 : Crew}
    (hag : c1.agents.map Agent.agent_id = c2.agents.map Agent.agent_id)
    (htid : c1.tasks.map (fun t => t.agent.agent_id)
      = c2.tasks.map (fun t => t.agent.agent_id))
    (hg : depGraph c1.tasks = depGraph c2.tasks)
    (hok : ∃ x, crew_post_init c1 = .ok x) :
    crew_post_init c2 = .ok c2 := by
  obtain ⟨x, hx⟩ := hok
  unfold crew_post_init at hx ⊢
  by_cases hA1 : c1.agents.isEmpty = true
  · rw [if_pos hA1] at hx
    cases hx
  rw [if_neg hA1] at hx
  by_cases hT1 : c1.tasks.isEmpty = true
  · rw [if_pos hT1] at hx
    cases hx
  rw [if_neg hT1] at hx
  have hA2 : ¬ c2.agents.isEmpty = true := by
    intro h2
    apply hA1
    rw [List.isEmpty_iff] at h2 ⊢
    have h3 : c2.agents.map Agent.agent_id = [] := by rw [h2]; rfl
    rw [← hag] at h3
    exact List.map_eq_nil.mp h3
  have hT2 : ¬ c2.tasks.isEmpty = true := by
    intro h2
    apply hT1
    rw [List.isEmpty_iff] at h2 ⊢
    have h3 : c2.tasks.map (fun t => t.agent.agent_id) = [] := by rw [h2]; rfl
    rw [← htid] at h3
    exact List.map_eq_nil.mp h3
  rw [if_neg hA2, if_neg hT2]
  rcases hf1 : c1.tasks.find?
      (fun t => decide (t.agent.agent_id ∉ c1.agents.map Agent.agent_id)) with _ | t0
  · rw [hf1] at hx
    have hmem1 : ∀ t ∈ c1.tasks, t.agent.agent_id ∈ c1.agents.map Agent.agent_id := by
      intro t ht
      have h := List.find?_eq_none.mp hf1 t ht
      simpa using h
    have hf2 : c2.tasks.find?
        (fun t => decide (t.agent.agent_id ∉ c2.agents.map Agent.agent_id)) = none := by
      rw [List.find?_eq_none]
      intro t ht
      have hmemmap : t.agent.agent_id ∈ c2.tasks.map (fun t => t.agent.agent_id) :=
        List.mem_map_of_mem _ ht
      rw [← htid] at hmemmap
      obtain ⟨u, hu, hueq⟩ := List.mem_map.mp hmemmap
      have hin := hmem1 u hu
      rw [hueq, hag] at hin
      simp [hin]
    rw [hf2]
    rcases hv1 : validate_task_dependencies c1.tasks with e | u
    · rw [hv1] at hx
      cases hx
    · have hv2 : validate_task_dependencies c2.tasks = .ok u := by
        unfold validate_task_dependencies at hv1 ⊢
        rw [← hg]
        exact hv1
      rw [hv2]
  · rw [hf1] at hx
    cases hx

/-- C7.  Checkpoint round-trip: for a valid crew (well-formed as in the
claim, diamonds included), `load` applied to the record written by
`save` succeeds with a crew whose agent ids, task ids, task statuses and
dependency edges (as id pairs) all equal the original's, using the
two-pass reconstruction. -/
theorem checkpoint_roundtrip (c : Crew)
    (hroles : ∀ a ∈ c.agents, a.role ≠ "" ∧ a.goal ≠ "")
    (hdesc : ∀ t ∈ c.tasks, t.description ≠ "")
    (hmem : ∀ t ∈ c.tasks, t.agent.agent_id ∈ c.agents.map Agent.agent_id)
    (hclosed : ∀ t ∈ c.tasks, ∀ d ∈ t.dependencies, d ∈ c.tasks.map Task.task_id)
    (hvalid : crew_post_init c = .ok c) :
    ∃ c2, CheckpointManager.load (CheckpointManager.save c) = .ok c2 ∧
      c2.agents.map Agent.agent_id = c.agents.map Agent.agent_id ∧
      c2.tasks.map Task.task_id = c.tasks.map Task.task_id ∧
      c2.tasks.map Task.status = c.tasks.map Task.status ∧
      depGraph c2.tasks = depGraph c.tasks ∧
      c2.crew_id = c.crew_id := by
  have hrolesD : ∀ d ∈ c.agents.map Agent.to_dict, d.role ≠ "" ∧ d.goal ≠ "" := by
    intro d hd
    obtain ⟨a, ha, rfl⟩ := List.mem_map.mp hd
    exact hroles a ha
  obtain ⟨agents2, amap, hla, haids, hkeyA, hlookA⟩ :=
    loadAgents_spec (c.agents.map Agent.to_dict) [] []
      hrolesD (by intro k a2 h; simp [dlookup] at h)
  have hcomp_eq : c.agents.map (AgentDict.agent_id ∘ Agent.to_dict)
      = c.agents.map Agent.agent_id := by
    apply map_eq_of_forall
    intro a _
    rfl
  have haids2 : agents2.map Agent.agent_id = c.agents.map Agent.agent_id := by
    rw [haids, List.map_map]
    simp only [List.map_nil, List.nil_append]
    exact hcomp_eq
  have hexA : ∀ t ∈ c.tasks, ∃ a, dlookup t.agent.agent_id amap = some a := by
    intro t ht
    apply hlookA
    right
    rw [List.map_map, hcomp_eq]
    exact hmem t ht
  obtain ⟨tasks1, tmap, hlt, hf2, hkeyT, hlookT⟩ :=
    loadTasksPass1_spec amap hkeyA c.tasks [] [] hdesc hexA
      (by intro k t2 h; simp [dlookup] at h)
  rw [List.nil_append] at hlt
  have hexT : ∀ t ∈ c.tasks, ∀ d2 ∈ t.dependencies, ∃ t2, dlookup d2 tmap = some t2 := by
    intro t ht d2 hd2
    apply hlookT
    right
    exact hclosed t ht d2 hd2
  obtain ⟨tasks2, hwd, hfw⟩ := wireDeps_spec tmap hkeyT c.tasks tasks1 hf2 hexT
  have htid2 : tasks2.map Task.task_id = c.tasks.map Task.task_id :=
    forall₂_map_eq hfw (fun _ _ h => h.1)
  have hstat2 : tasks2.map Task.status = c.tasks.map Task.status :=
    forall₂_map_eq hfw (fun _ _ h => h.2.1)
  have hags2 : tasks2.map (fun t => t.agent.agent_id)
      = c.tasks.map (fun t => t.agent.agent_id) :=
    forall₂_map_eq hfw (fun _ _ h => h.2.2.1)
  have hdg2 : depGraph tasks2 = depGraph c.tasks := by
    unfold depGraph
    exact forall₂_map_eq hfw (fun _ _ h => by rw [h.1, h.2.2.2])
  have hproc := processOfString_processToString c.process
  have hpost : crew_post_init
      { agents := agents2, tasks := tasks2, process := c.process, memory := c.memory,
        cache := c.cache, verbose := c.verbose, checkpoint_enabled := c.checkpoint_enabled,
        max_rpm := c.max_rpm, crew_id := "" } = .ok
      { agents := agents2, tasks := tasks2, process := c.process, memory := c.memory,
        cache := c.cache, verbose := c.verbose, checkpoint_enabled := c.checkpoint_enabled,
        max_rpm := c.max_rpm, crew_id := "" } := by
    apply @crew_post_init_ok_congr c
    · exact haids2.symm
    · exact hags2.symm
    · exact hdg2.symm
    · exact ⟨c, hvalid⟩
  refine ⟨{ agents := agents2, tasks := tasks2, process := c.process, memory := c.memory,
            cache := c.cache, verbose := c.verbose,
            checkpoint_enabled := c.checkpoint_enabled,
            max_rpm := c.max_rpm, crew_id := c.crew_id },
    ?_, haids2, htid2, hstat2, hdg2, rfl⟩
  simp only [CheckpointManager.load, CheckpointManager.save, Crew.to_dict,
    hla, except_bind_ok, hlt, hwd, hproc, hpost]

/-- Witness for C7 at the concrete two-task crew. -/
theorem checkpoint_roundtrip_witness :
    ((∀ a ∈ wCrew.agents, a.role ≠ "" ∧ a.goal ≠ "") ∧
     (∀ t ∈ wCrew.tasks, t.description ≠ "") ∧
     (∀ t ∈ wCrew.tasks, t.agent.agent_id ∈ wCrew.agents.map Agent.agent_id) ∧
     (∀ t ∈ wCrew.tasks, ∀ d ∈ t.dependencies, d ∈ wCrew.tasks.map Task.task_id) ∧
     crew_post_init wCrew = .ok wCrew) ∧
    (∃ c2, CheckpointManager.load (CheckpointManager.save wCrew) = .ok c2 ∧
      c2.agents.map Agent.agent_id = wCrew.agents.map Agent.agent_id ∧
      c2.tasks.map Task.task_id = wCrew.tasks.map Task.task_id ∧
      c2.tasks.map Task.status = wCrew.tasks.map Task.status ∧
      depGraph c2.tasks = depGraph wCrew.tasks ∧
      c2.crew_id = wCrew.crew_id) :=
  ⟨⟨by decide, by decide, by decide, by decide, by rfl⟩,
    checkpoint_roundtrip wCrew (by decide) (by decide) (by decide) (by decide) (by rfl)⟩

end LlamaCrew
